import Mathlib

/-!
Verification development for the `xcltk` BAF preprocessing pipeline
(`preprocess/baf.py`).  The pipeline orchestrator `run_baf_preprocess` and the
command line entry point `main` are embedded shallowly: the filesystem is a
list of existing paths, external tools are events in a trace whose
data-dependent outcomes (variant counts, produced files) come from an
`Oracle`, and fallible steps return `Except`.
-/

/-! ## String helpers (character list based, so that the kernel evaluates them) -/

/-- Tests whether the first list is a leading segment of the second. -/
def charsPre : List Char → List Char → Bool
  | [], _ => true
  | _ :: _, [] => false
  | a :: as, b :: bs => a = b && charsPre as bs

/-- Tests whether the needle occurs contiguously inside the haystack,
mirroring the Python `in` operator on strings. -/
def charsSub (hay needle : List Char) : Bool :=
  if charsPre needle hay then true
  else
    match hay with
    | [] => false
    | _ :: t => charsSub t needle

/-- Leading-segment test on strings. -/
def strStarts (s p : String) : Bool := charsPre p.data s.data

/-- Trailing-segment test on strings. -/
def strEnds (s p : String) : Bool := charsPre p.data.reverse s.data.reverse

/-- Substring test on strings, mirroring the Python `in` operator. -/
def strHas (s sub : String) : Bool := charsSub s.data sub.data

/-- True when the string holds no path separator. -/
def noSlash (s : String) : Bool := s.data.all fun c => c ≠ '/'

/-- Removes the final character, mirroring Python slicing `s[:-1]`. -/
def dropLast1 (s : String) : String := String.mk s.data.dropLast

/-- Removes the first two characters, mirroring Python slicing `s[2:]`. -/
def strDrop2 (s : String) : String := String.mk (s.data.drop 2)

/-- ASCII lower casing of one character, as Python `str.lower` does on the
option names occurring here (all ASCII). -/
def charLower (c : Char) : Char :=
  if 'A' ≤ c ∧ c ≤ 'Z' then Char.ofNat (c.toNat + 32) else c

/-- ASCII lower casing of a string. -/
def strLower (s : String) : String := String.mk (s.data.map charLower)

/-- Splits a character list at the first occurrence of the equals sign,
mirroring `opt.index('=')` in Python getopt; `none` when absent. -/
def splitEqChars : List Char → Option (List Char × List Char)
  | [] => none
  | c :: rest =>
    if c = '=' then some ([], rest)
    else
      match splitEqChars rest with
      | none => none
      | some (a, b) => some (c :: a, b)

/-- Splits an option token `name=value` into the name and the optional value,
as Python getopt does before matching long options. -/
def splitOptEq (s : String) : String × Option String :=
  match splitEqChars s.data with
  | none => (s, none)
  | some (a, b) => (String.mk a, some (String.mk b))

/-- Membership of a string in a list of strings, as a boolean. -/
def hasStr (l : List String) (s : String) : Bool := l.any fun q => decide (q = s)

/-- Embedding of `os.path.join` for the path shapes the pipeline builds:
an absolute second component wins, an empty or separator-terminated first
component concatenates directly, otherwise a separator is inserted. -/
def pjoin (a b : String) : String :=
  if strStarts b "/" then b
  else if a = "" then b
  else if strEnds a "/" then a ++ b
  else a ++ "/" ++ b

/-! ## Data model of the pipeline run -/

/-- Events recording each stage invocation and directory creation performed by
`run_baf_preprocess`, in order. -/
inductive Ev where
  | mkdir (d : String)
  | pileup
  | addGenotype (out_fn : String)
  | split
  | index (fn : String)
  | phase (targets refs prefixes : List String)
  | merge (ins : List String) (out : String)
deriving DecidableEq

/-- Run configuration: the keyword arguments of `run_baf_preprocess`
(`baf.py` lines 120 to 129), with `None` as `none`. -/
structure Cfg where
  label : Option String
  sam_fn : Option String
  sam_list_fn : Option String
  barcode_fn : Option String
  snp_vcf_fn : Option String
  out_dir : Option String
  gmap_fn : Option String
  eagle_fn : Option String
  panel_dir : Option String
  cell_tag : String
  umi_tag : String
  ncores : Int
  mode : String
deriving DecidableEq

/-- Outcomes of the external tools, which the orchestrator only observes
through the filesystem: the per-chromosome variant counts and partition paths
reported by `vcf_split_chrom`, whether the pileup engine produced its output
VCF, and which chromosomes the phasing engine produced output for. -/
structure Oracle where
  counts : String → Nat
  splitPath : String → String
  pileupOk : Bool
  phasedOk : String → Bool

/-- Result of one orchestrator run: the Python outcome (normal return or an
uncaught exception), the final filesystem, and the event trace. -/
structure RunOut where
  result : Except String Unit
  fs : List String
  trace : List Ev

/-! ## Deterministic path construction (lines 156, 159, 175, 183, 192, 227,
229, 249, 253 of `baf.py`) -/

/-- The pileup working directory `out_dir/pileup`. -/
def pileup_dir (od : String) : String := pjoin od "pileup"

/-- The expected pileup output VCF (line 175). -/
def pileup_vcf_fn (od : String) : String := pjoin (pileup_dir od) "cellSNP.base.vcf.gz"

/-- The phasing working directory `out_dir/phasing`. -/
def phasing_dir (od : String) : String := pjoin od "phasing"

/-- The genotype VCF path `out_dir/<label>.genotype.vcf.gz` (line 192). -/
def genotype_vcf_fn (od label : String) : String :=
  pjoin od (label ++ ".genotype.vcf.gz")

/-- The per-chromosome phasing output path stem
`phasing_dir/<label>_<chrom>.phased` (lines 229 to 230). -/
def out_prefix_fn (od label chrom : String) : String :=
  pjoin (phasing_dir od) (label ++ "_" ++ chrom ++ ".phased")

/-- The per-chromosome phased VCF `<stem>.vcf.gz` (line 249). -/
def phased_vcf_fn (od label chrom : String) : String :=
  out_prefix_fn od label chrom ++ ".vcf.gz"

/-- The final merged VCF path `out_dir/<label>.phased.vcf.gz` (line 253). -/
def final_vcf_fn (od label : String) : String :=
  pjoin od (label ++ ".phased.vcf.gz")

/-- The reference panel variant file of one chromosome (lines 145, 227). -/
def panel_bcf (pd chrom : String) : String :=
  pjoin pd (chrom ++ ".genotypes.bcf")

/-- The reference panel index file of one chromosome (line 146). -/
def panel_csi (pd chrom : String) : String :=
  pjoin pd (chrom ++ ".genotypes.bcf.csi")

/-- The fixed chromosome targets `chr1` to `chr22` (line 211). -/
def chrom_list : List String :=
  (List.range' 1 22).map fun i => "chr" ++ toString i

/-- The genome build decision of line 148:
`genome = "hg19" if "hg19" in gmap_fn else "hg38"`. -/
def genome_of (gmap_fn : String) : String :=
  if strHas gmap_fn "hg19" then "hg19" else "hg38"

/-- The assertion loop of lines 144 to 146, which checks existence of the 22
panel file pairs one by one and performs no other effect; it passes exactly
when every pair is present. -/
def panel_files_ok (pd : String) (fs : List String) : Bool :=
  (List.range' 1 22).all fun n =>
    hasStr fs (panel_bcf pd ("chr" ++ toString n)) &&
    hasStr fs (panel_csi pd ("chr" ++ toString n))

/-- Effect of `if not os.path.exists(d): os.mkdir(d)` on the filesystem. -/
def mkdirFs (fs : List String) (d : String) : List String :=
  if hasStr fs d then fs else d :: fs

/-- Trace contribution of `if not os.path.exists(d): os.mkdir(d)`. -/
def mkdirTr (fs : List String) (d : String) : List Ev :=
  if hasStr fs d then [] else [Ev.mkdir d]

/-! ## The chromosome partition bookkeeping (lines 205 to 230, 249) -/

/-- Modelled from the spec: `vcf_split_chrom` returns, for each target
chromosome in `chrom_list` order, a triple of chromosome id, variant count
and output VCF path (spec section 4.4); counts and paths come from the
oracle since the VCF contents are not modelled. -/
def split_res (counts : String → Nat) (sp : String → String) :
    List (String × Nat × String) :=
  chrom_list.map fun c => (c, counts c, sp c)

/-- The loop of lines 215 to 219: walks the split result in order and, for
each triple with a positive count, appends the chromosome to `valid_chroms`
and the file to `target_vcf_list`. -/
def collectValid : List (String × Nat × String) → List String × List String
  | [] => ([], [])
  | t :: rest =>
    let r := collectValid rest
    if 0 < t.2.1 then (t.1 :: r.1, t.2.2 :: r.2) else r

/-- The retained chromosomes, in `chrom_list` order. -/
def valid_chroms (counts : String → Nat) (sp : String → String) : List String :=
  (collectValid (split_res counts sp)).1

/-- The retained partition VCFs, aligned with `valid_chroms`. -/
def target_vcf_list (counts : String → Nat) (sp : String → String) : List String :=
  (collectValid (split_res counts sp)).2

/-- The reference panel files selected for phasing (lines 227 to 228). -/
def ref_vcf_list (counts : String → Nat) (sp : String → String) (pd : String) :
    List String :=
  (valid_chroms counts sp).map fun c => panel_bcf pd c

/-- The phasing output stems (lines 229 to 230). -/
def out_prefix_list (counts : String → Nat) (sp : String → String)
    (od label : String) : List String :=
  (valid_chroms counts sp).map fun c => out_prefix_fn od label c

/-- The merge set: the phased VCFs the Merge Aggregator expects (line 249). -/
def phased_vcf_list (counts : String → Nat) (sp : String → String)
    (od label : String) : List String :=
  (out_prefix_list counts sp od label).map fun p => p ++ ".vcf.gz"

/-- The label-derived artifact paths of one run named by the claims: the
genotype VCF, the final merged VCF, and one phased VCF per chromosome. -/
def label_paths (od label : String) : List String :=
  genotype_vcf_fn od label :: final_vcf_fn od label ::
    chrom_list.map fun c => phased_vcf_fn od label c

/-! ## The orchestrator `run_baf_preprocess` (lines 120 to 256) -/

/-- The argument checking section of lines 132 to 158 before the pileup
stage: modelled from the spec for the missing helpers, `assert_n` fails on an
unset label and `assert_e` fails when the path is absent (spec section 4.1);
`os.path.exists(None)` raises, so a missing `out_dir` also aborts.  On
success it returns the label, output directory and panel directory together
with the filesystem and trace after the conditional creation of the output
directory (lines 138 to 139). -/
def preflight (cfg : Cfg) (fs0 : List String) :
    Except String (String × String × String) × List String × List Ev :=
  match cfg.label with
  | none => (Except.error "label is not set", fs0, [])
  | some label =>
    match cfg.snp_vcf_fn with
    | none => (Except.error "snpvcf is not set", fs0, [])
    | some snp =>
      if ¬ hasStr fs0 snp then (Except.error "snpvcf missing", fs0, [])
      else
        match cfg.out_dir with
        | none => (Except.error "outdir is not set", fs0, [])
        | some od =>
          let fs1 := mkdirFs fs0 od
          let tr1 := mkdirTr fs0 od
          match cfg.gmap_fn with
          | none => (Except.error "gmap is not set", fs1, tr1)
          | some gmap =>
            if ¬ hasStr fs1 gmap then (Except.error "gmap missing", fs1, tr1)
            else
              match cfg.eagle_fn with
              | none => (Except.error "eagle is not set", fs1, tr1)
              | some eagle =>
                if ¬ hasStr fs1 eagle then (Except.error "eagle missing", fs1, tr1)
                else
                  match cfg.panel_dir with
                  | none => (Except.error "paneldir is not set", fs1, tr1)
                  | some pd =>
                    if ¬ hasStr fs1 pd then
                      (Except.error "paneldir missing", fs1, tr1)
                    else if ¬ panel_files_ok pd fs1 then
                      (Except.error "panel file missing", fs1, tr1)
                    else
                      (Except.ok (label, od, pd), fs1, tr1)

/-- The filesystem after the pileup stage: the pileup directory is created
if absent and the engine leaves its output VCF only when the oracle says
so. -/
def pileup_out_fs (od : String) (orc : Oracle) (fs : List String) : List String :=
  if orc.pileupOk then pileup_vcf_fn od :: mkdirFs fs (pileup_dir od)
  else mkdirFs fs (pileup_dir od)

/-- The filesystem after the phasing stage: the phasing directory is created
if absent, the genotype VCF is written, the split writes the retained
partition files, indexing adds one index per retained partition, and the
phasing engine leaves the phased VCF of exactly the chromosomes the oracle
says succeeded. -/
def post_phasing_fs (l od : String) (orc : Oracle) (fs : List String) :
    List String :=
  (((valid_chroms orc.counts orc.splitPath).filter fun c =>
      orc.phasedOk c).map fun c => phased_vcf_fn od l c) ++
  ((target_vcf_list orc.counts orc.splitPath).map fun t => t ++ ".csi") ++
  target_vcf_list orc.counts orc.splitPath ++
  (genotype_vcf_fn od l :: mkdirFs (pileup_out_fs od orc fs) (phasing_dir od))

/-- The stage sequence after preflight (lines 153 to 256): pileup directory
and call, pileup output assertion, phasing directory, genotype annotation,
chromosome split with per-chromosome indexing, reference phasing, merge
assertions and merge.  The external tools are modelled from the spec: the
pileup adapter rejects the mutually exclusive alignment arguments being both
or neither set, its engine output appearing only when the oracle says so;
`vcf_index` writes a `.csi` next to its input; the phasing engine leaves the
output of a chromosome only when the oracle says so; `vcf_merge` writes the
merged VCF. -/
def stages (label od pd : String) (cfg : Cfg) (orc : Oracle)
    (fs : List String) (tr : List Ev) : RunOut :=
  let tr2 := tr ++ mkdirTr fs (pileup_dir od) ++ [Ev.pileup]
  if cfg.sam_fn.isSome = cfg.sam_list_fn.isSome then
    ⟨Except.error "pileup: one and only one of sam and samlist",
      mkdirFs fs (pileup_dir od), tr2⟩
  else
    let fs3 := pileup_out_fs od orc fs
    if ¬ hasStr fs3 (pileup_vcf_fn od) then
      ⟨Except.error "pileup vcf missing", fs3, tr2⟩
    else
      let tr4 := tr2 ++ mkdirTr fs3 (phasing_dir od)
      let tr5 := tr4 ++ [Ev.addGenotype (genotype_vcf_fn od label)]
      let targets := target_vcf_list orc.counts orc.splitPath
      let tr6 := tr5 ++ [Ev.split] ++ targets.map Ev.index
      let refs := ref_vcf_list orc.counts orc.splitPath pd
      let prefixes := out_prefix_list orc.counts orc.splitPath od label
      let tr7 := tr6 ++ [Ev.phase targets refs prefixes]
      let fs7 := post_phasing_fs label od orc fs
      let expected := phased_vcf_list orc.counts orc.splitPath od label
      if ¬ expected.all fun fn => hasStr fs7 fn then
        ⟨Except.error "phased vcf missing", fs7, tr7⟩
      else
        ⟨Except.ok (), final_vcf_fn od label :: fs7,
          tr7 ++ [Ev.merge expected (final_vcf_fn od label)]⟩

/-- The whole of `run_baf_preprocess`: preflight, then the stage sequence. -/
def runBaf (cfg : Cfg) (orc : Oracle) (fs0 : List String) : RunOut :=
  match preflight cfg fs0 with
  | (Except.error e, fs, tr) => ⟨Except.error e, fs, tr⟩
  | (Except.ok (label, od, pd), fs, tr) => stages label od pd cfg orc fs tr

/-! ## The command line entry point `main` (lines 50 to 117, 270 to 271) -/

/-- The long option table passed to `getopt.getopt` (lines 65 to 78); a
trailing equals sign marks an option taking an argument. -/
def longoptsSpec : List String :=
  ["label=", "sam=", "samlist=", "barcode=", "snpvcf=",
   "outdir=", "gmap=", "eagle=", "paneldir=",
   "version", "help",
   "cellTAG=", "UMItag=", "ncores=", "smartseq", "bulk"]

/-- Embedding of `getopt.long_has_args`: resolves a possibly abbreviated long
option name against the table, returning whether it takes an argument and its
canonical name, or failing on unknown or ambiguous names. -/
def long_has_args (name : String) : Except String (Bool × String) :=
  let poss := longoptsSpec.filter fun o => strStarts o name
  if poss.isEmpty then Except.error "option not recognized"
  else if hasStr poss name then Except.ok (false, name)
  else if hasStr poss (name ++ "=") then Except.ok (true, name)
  else if 1 < poss.length then Except.error "ambiguous option"
  else
    match poss with
    | [] => Except.error "option not recognized"
    | u :: _ =>
      if strEnds u "=" then Except.ok (true, dropLast1 u)
      else Except.ok (false, u)

/-- Embedding of `getopt.do_longs` for one token (already stripped of the
leading dashes): splits off an inline `=value`, resolves the name, and either
takes the inline value, consumes the following token, or fails; the returned
flag says whether the following token was consumed. -/
def do_longs (optstr : String) (next? : Option String) :
    Except String ((String × String) × Bool) :=
  let p := splitOptEq optstr
  match long_has_args p.1 with
  | Except.error e => Except.error e
  | Except.ok (hasArg, opt) =>
    if hasArg then
      match p.2 with
      | some a => Except.ok (("--" ++ opt, a), false)
      | none =>
        match next? with
        | none => Except.error "option requires argument"
        | some v => Except.ok (("--" ++ opt, v), true)
    else
      match p.2 with
      | some _ => Except.error "option must not have an argument"
      | none => Except.ok (("--" ++ opt, ""), false)

/-- Embedding of the `getopt.getopt` main loop with empty short options,
written with an explicit fuel argument (one unit per processed token, so the
initial token count always suffices): stops at the first token that is no
option or at a bare double dash, rejects single dash short options, and
otherwise resolves long options in order. -/
def getoptGo : Nat → List String → Except String (List (String × String))
  | _, [] => Except.ok []
  | 0, _ :: _ => Except.ok []
  | Nat.succ f, a :: rest =>
    if a = "-" then Except.ok []
    else if ¬ strStarts a "-" then Except.ok []
    else if a = "--" then Except.ok []
    else if strStarts a "--" then
      match do_longs (strDrop2 a) rest.head? with
      | Except.error e => Except.error e
      | Except.ok (pair, consumed) =>
        match getoptGo f (if consumed then rest.tail else rest) with
        | Except.error e => Except.error e
        | Except.ok ps => Except.ok (pair :: ps)
    else Except.error "short option not recognized"

/-- The getopt loop at its entry point: the token count is always enough
fuel, since each step consumes at least one token. -/
def getoptLoop (args : List String) : Except String (List (String × String)) :=
  getoptGo args.length args

/-- The default configuration state of `main` before option processing
(lines 57 to 63). -/
def defaultCfg : Cfg :=
  { label := none, sam_fn := none, sam_list_fn := none, barcode_fn := none,
    snp_vcf_fn := none, out_dir := none, gmap_fn := none, eagle_fn := none,
    panel_dir := none, cell_tag := "CB", umi_tag := "UB", ncores := 1,
    mode := "10x" }

/-- Outcome of the option dispatch loop of `main` (lines 80 to 102): a
finished configuration, an immediate `sys.exit` with a code (for version,
help, or the uncaught exception of a bad `int` conversion), or the early
`return(-1)` of the unmatched option branch, whose value the module level
call discards. -/
inductive OptOutcome where
  | done (c : Cfg)
  | exitWith (n : Nat)
  | earlyReturn
deriving DecidableEq

/-- The option dispatch loop of `main` (lines 80 to 102): each option is
lower cased when longer than two characters and matched against the handled
names in source order; `version` and `help` exit with status 1, a bad
`ncores` value raises (exit status 1), and an unmatched option logs an error
and makes `main` return -1. -/
def applyOpts (c : Cfg) : List (String × String) → OptOutcome
  | [] => OptOutcome.done c
  | (op0, val) :: rest =>
    let op := if 2 < op0.length then strLower op0 else op0
    if op = "--label" then applyOpts { c with label := some val } rest
    else if op = "--sam" then applyOpts { c with sam_fn := some val } rest
    else if op = "--samlist" then applyOpts { c with sam_list_fn := some val } rest
    else if op = "--barcode" then applyOpts { c with barcode_fn := some val } rest
    else if op = "--snpvcf" then applyOpts { c with snp_vcf_fn := some val } rest
    else if op = "--outdir" then applyOpts { c with out_dir := some val } rest
    else if op = "--gmap" then applyOpts { c with gmap_fn := some val } rest
    else if op = "--eagle" then applyOpts { c with eagle_fn := some val } rest
    else if op = "--paneldir" then applyOpts { c with panel_dir := some val } rest
    else if op = "--version" then OptOutcome.exitWith 1
    else if op = "--help" then OptOutcome.exitWith 1
    else if op = "--celltag" then applyOpts { c with cell_tag := val } rest
    else if op = "--umitag" then applyOpts { c with umi_tag := val } rest
    else if op = "--ncores" then
      match val.toInt? with
      | none => OptOutcome.exitWith 1
      | some n => applyOpts { c with ncores := n } rest
    else if op = "--smartseq" then applyOpts { c with mode := "smartseq" } rest
    else if op = "--bulk" then applyOpts { c with mode := "bulk" } rest
    else OptOutcome.earlyReturn

/-- The process exit status of `python baf.py argv`: fewer than two argv
entries exit 1 after usage; a getopt failure is an uncaught exception, exit
status 1; `sys.exit` codes pass through; the early `return(-1)` of the
unmatched option branch is discarded at module level (line 271), so the
process exits 0; an exception escaping `run_baf_preprocess` gives exit
status 1; a normal return gives exit status 0. -/
def processExit (argv : List String) (orc : Oracle) (fs0 : List String) : Nat :=
  if argv.length < 2 then 1
  else
    match getoptLoop (argv.drop 1) with
    | Except.error _ => 1
    | Except.ok opts =>
      match applyOpts defaultCfg opts with
      | OptOutcome.exitWith n => n
      | OptOutcome.earlyReturn => 0
      | OptOutcome.done cfg =>
        match (runBaf cfg orc fs0).result with
        | Except.error _ => 1
        | Except.ok _ => 0

/-- Completion predicate of one invocation: the options parsed to a
configuration, the orchestrator returned normally, and the final merged VCF
is present in the final filesystem. -/
def pipeline_completed (argv : List String) (orc : Oracle) (fs0 : List String) : Prop :=
  ∃ cfg label od,
    (∃ opts, getoptLoop (argv.drop 1) = Except.ok opts ∧
      applyOpts defaultCfg opts = OptOutcome.done cfg) ∧
    cfg.label = some label ∧ cfg.out_dir = some od ∧
    (runBaf cfg orc fs0).result = Except.ok () ∧
    final_vcf_fn od label ∈ (runBaf cfg orc fs0).fs

/-! ## Concrete inputs for witnesses -/

/-- A reference panel directory fully populated for `chr1` to `chr22`. -/
def demoPanel : List String :=
  ((List.range' 1 22).map fun n => panel_bcf "panel" ("chr" ++ toString n)) ++
  ((List.range' 1 22).map fun n => panel_csi "panel" ("chr" ++ toString n))

/-- A filesystem holding every preflight input. -/
def demoFs : List String :=
  ["snp.vcf.gz", "gmap_hg38.txt.gz", "eagle2", "panel", "bc.tsv", "a.bam"] ++ demoPanel

/-- A fully populated, well formed configuration. -/
def demoCfg : Cfg :=
  { label := some "S", sam_fn := some "a.bam", sam_list_fn := none,
    barcode_fn := some "bc.tsv", snp_vcf_fn := some "snp.vcf.gz",
    out_dir := some "out", gmap_fn := some "gmap_hg38.txt.gz",
    eagle_fn := some "eagle2", panel_dir := some "panel",
    cell_tag := "CB", umi_tag := "UB", ncores := 1, mode := "10x" }

/-- External outcomes: variants only on `chr1` and `chr5`, pileup and all
phasing invocations succeed. -/
def demoOrc : Oracle :=
  { counts := fun c => if c = "chr1" then 3 else if c = "chr5" then 2 else 0,
    splitPath := fun c => "out/phasing/S_" ++ c ++ ".vcf.gz",
    pileupOk := true,
    phasedOk := fun _ => true }

/-! ## Toolkit lemmas on the string helpers -/

/-- A list is a leading segment of itself followed by anything. -/
theorem charsPre_append_self (p t : List Char) : charsPre p (p ++ t) = true := by
  induction p with
  | nil => rfl
  | cons a as ih => simp [charsPre, ih]

/-- Two leading segments of one list are comparable. -/
theorem charsPre_comparable {p q l : List Char} (hp : charsPre p l = true)
    (hq : charsPre q l = true) : charsPre p q = true ∨ charsPre q p = true := by
  induction l generalizing p q with
  | nil =>
    cases p with
    | nil => exact Or.inl rfl
    | cons a as => exact absurd hp (by simp [charsPre])
  | cons b bs ih =>
    cases p with
    | nil => exact Or.inl rfl
    | cons a as =>
      cases q with
      | nil => exact Or.inr rfl
      | cons c cs =>
        simp only [charsPre, Bool.and_eq_true, decide_eq_true_eq] at hp hq
        rcases ih hp.2 hq.2 with h | h
        · exact Or.inl (by simp [charsPre, hp.1, hq.1, h])
        · exact Or.inr (by simp [charsPre, hp.1, hq.1, h])

/-- Boolean suffix comparability of two character lists. -/
def sufCmp (u v : List Char) : Bool :=
  charsPre u.reverse v.reverse || charsPre v.reverse u.reverse

/-- When two concatenations agree, the two final segments are suffix
comparable. -/
theorem sufCmp_of_append_eq {a b u v : List Char} (h : a ++ u = b ++ v) :
    sufCmp u v = true := by
  have h1 : charsPre u.reverse ((a ++ u).reverse) = true := by
    rw [List.reverse_append]; exact charsPre_append_self _ _
  have h2 : charsPre v.reverse ((a ++ u).reverse) = true := by
    rw [h, List.reverse_append]; exact charsPre_append_self _ _
  rcases charsPre_comparable h1 h2 with hc | hc <;> simp [sufCmp, hc]

/-- Strings whose stated trailing parts are suffix incomparable differ, for
any leading parts. -/
theorem str_ne_of_sufCmp {u v : String} (h : sufCmp u.data v.data = false)
    (a b : String) : a ++ u ≠ b ++ v := by
  intro he
  have hd : a.data ++ u.data = b.data ++ v.data := by
    have := congrArg String.data he
    simpa [String.data_append] using this
  rw [sufCmp_of_append_eq hd] at h
  simp at h

/-- Cancellation of a shared leading string. -/
theorem str_append_left_cancel {s x y : String} (h : s ++ x = s ++ y) : x = y := by
  apply String.ext
  have hd := congrArg String.data h
  simp only [String.data_append] at hd
  exact List.append_cancel_left hd

/-- Cancellation of a shared trailing string. -/
theorem str_append_right_cancel {s x y : String} (h : x ++ s = y ++ s) : x = y := by
  apply String.ext
  have hd := congrArg String.data h
  simp only [String.data_append] at hd
  exact List.append_cancel_right hd

/-- A slash free string never equals one whose characters include a slash. -/
theorem ne_of_noSlash_mem {x y : String} (hx : noSlash x = true)
    (hy : '/' ∈ y.data) : x ≠ y := by
  intro he
  subst he
  simp only [noSlash, List.all_eq_true, decide_eq_true_eq] at hx
  exact hx _ hy rfl

/-- Slash free strings do not start with a slash. -/
theorem strStarts_slash_false {x : String} (hx : noSlash x = true) :
    strStarts x "/" = false := by
  unfold strStarts
  cases hd : x.data with
  | nil => rfl
  | cons c cs =>
    simp only [noSlash, List.all_eq_true, decide_eq_true_eq] at hx
    have hc : c ≠ '/' := hx c (hd ▸ List.mem_cons_self c cs)
    have hs : ("/" : String).data = ['/'] := rfl
    rw [hs]
    simp [charsPre]
    exact fun h => hc h.symm

/-- Slash freedom distributes over concatenation. -/
theorem noSlash_append {x y : String} (hx : noSlash x = true)
    (hy : noSlash y = true) : noSlash (x ++ y) = true := by
  simp only [noSlash, String.data_append, List.all_append, Bool.and_eq_true]
  exact ⟨hx, hy⟩

/-! ## Filesystem and directory creation lemmas -/

/-- Boolean membership agrees with list membership. -/
theorem hasStr_iff {l : List String} {s : String} : hasStr l s = true ↔ s ∈ l := by
  simp [hasStr, List.any_eq_true]

/-- Failed boolean membership agrees with absence. -/
theorem hasStr_false_iff {l : List String} {s : String} :
    hasStr l s = false ↔ s ∉ l := by
  rw [← Bool.not_eq_true, not_iff_not]
  exact hasStr_iff

/-- The created directory is present afterwards. -/
theorem mem_mkdirFs_self (fs : List String) (d : String) : d ∈ mkdirFs fs d := by
  unfold mkdirFs
  split
  · next h => exact hasStr_iff.mp h
  · exact List.mem_cons_self d fs

/-- Directory creation preserves every present path. -/
theorem mkdirFs_subset (fs : List String) (d : String) : fs ⊆ mkdirFs fs d := by
  unfold mkdirFs
  split
  · exact fun p hp => hp
  · exact fun p hp => List.mem_cons_of_mem d hp

/-- Every path present after directory creation is the directory or was
already present. -/
theorem mem_of_mkdirFs {p : String} {fs : List String} {d : String}
    (h : p ∈ mkdirFs fs d) : p = d ∨ p ∈ fs := by
  unfold mkdirFs at h
  split at h
  · exact Or.inr h
  · rcases List.mem_cons.mp h with h | h
    · exact Or.inl h
    · exact Or.inr h

/-- The only possible directory creation event is for the given directory. -/
theorem mem_mkdirTr {e : Ev} {fs : List String} {d : String}
    (h : e ∈ mkdirTr fs d) : e = Ev.mkdir d := by
  unfold mkdirTr at h
  split at h
  · cases h
  · rcases List.mem_cons.mp h with h | h
    · exact h
    · cases h

/-- When the directory is absent it is pushed onto the filesystem. -/
theorem mkdirFs_of_absent {fs : List String} {d : String}
    (h : hasStr fs d = false) : mkdirFs fs d = d :: fs := by
  simp [mkdirFs, h]

/-- When the directory is absent its creation is recorded. -/
theorem mkdirTr_of_absent {fs : List String} {d : String}
    (h : hasStr fs d = false) : mkdirTr fs d = [Ev.mkdir d] := by
  simp [mkdirTr, h]

/-! ## Path construction lemmas -/

/-- A leading slash test on a list headed by another character fails. -/
theorem charsPre_slash_cons {c : Char} (l : List Char) (hc : c ≠ '/') :
    charsPre ['/'] (c :: l) = false := by
  simp [charsPre]
  exact fun h => hc h.symm

/-- A nonempty string has nonempty characters. -/
theorem data_ne_nil {b : String} (hb : b ≠ "") : b.data ≠ [] := by
  intro h
  exact hb (String.ext h)

/-- Joining a nonempty relative component strictly extends the path, so the
result never equals the base directory. -/
theorem pjoin_ne_left {a b : String} (hb : b ≠ "") (hs : strStarts b "/" = false) :
    pjoin a b ≠ a := by
  unfold pjoin
  rw [hs]
  simp only [Bool.false_eq_true, if_false]
  split
  · next h => subst h; exact hb
  · split
    · intro he
      have hd := congrArg String.data he
      have hl := congrArg List.length hd
      simp [String.data_append] at hl
      exact data_ne_nil hb (List.length_eq_zero.mp hl)
    · intro he
      have hd := congrArg String.data he
      have hl := congrArg List.length hd
      simp [String.data_append] at hl

/-- Joining two components with equal slash starting status onto one base is
injective in the second component. -/
theorem pjoin_inj {d x y : String} (hxy : strStarts x "/" = strStarts y "/")
    (h : pjoin d x = pjoin d y) : x = y := by
  unfold pjoin at h
  cases hx : strStarts x "/" with
  | true =>
    rw [hx, ← hxy, hx] at h
    simpa using h
  | false =>
    rw [hx, ← hxy, hx] at h
    simp only [Bool.false_eq_true, if_false] at h
    split at h
    · exact h
    · split at h
      · exact str_append_left_cancel h
      · exact str_append_left_cancel (str_append_left_cancel
          ((String.append_assoc d "/" x) ▸ (String.append_assoc d "/" y) ▸ h))

/-- Joining onto any base keeps an explicit trailing part of the component
as a trailing part of the result. -/
theorem pjoin_suffix_shape (d x s : String) : ∃ a, pjoin d (x ++ s) = a ++ s := by
  unfold pjoin
  split
  · exact ⟨x, rfl⟩
  · split
    · exact ⟨x, rfl⟩
    · split
      · exact ⟨d ++ x, (String.append_assoc d x s).symm⟩
      · exact ⟨d ++ "/" ++ x, (String.append_assoc (d ++ "/") x s).symm⟩

/-- The genotype VCF path carries its fixed trailing part. -/
theorem genotype_suffix (od l : String) :
    ∃ a, genotype_vcf_fn od l = a ++ ".genotype.vcf.gz" := by
  unfold genotype_vcf_fn
  exact pjoin_suffix_shape od l ".genotype.vcf.gz"

/-- The final merged VCF path carries its fixed trailing part. -/
theorem final_suffix (od l : String) :
    ∃ a, final_vcf_fn od l = a ++ ".phased.vcf.gz" := by
  unfold final_vcf_fn
  exact pjoin_suffix_shape od l ".phased.vcf.gz"

/-- A phased VCF path carries its fixed trailing part. -/
theorem phased_suffix (od l c : String) :
    ∃ a, phased_vcf_fn od l c = a ++ ".phased.vcf.gz" := by
  unfold phased_vcf_fn out_prefix_fn
  obtain ⟨a, ha⟩ := pjoin_suffix_shape (phasing_dir od) (l ++ "_" ++ c) ".phased"
  refine ⟨a, ?_⟩
  rw [ha, String.append_assoc a ".phased" ".vcf.gz"]
  rfl

/-- The genotype VCF path never coincides with a final merged VCF path,
whatever the labels. -/
theorem genotype_ne_final (od l1 od2 l2 : String) :
    genotype_vcf_fn od l1 ≠ final_vcf_fn od2 l2 := by
  obtain ⟨a, ha⟩ := genotype_suffix od l1
  obtain ⟨b, hb⟩ := final_suffix od2 l2
  rw [ha, hb]
  exact str_ne_of_sufCmp (by decide) a b

/-- The genotype VCF path never coincides with a phased VCF path, whatever
the labels and chromosome. -/
theorem genotype_ne_phased (od l1 od2 l2 c : String) :
    genotype_vcf_fn od l1 ≠ phased_vcf_fn od2 l2 c := by
  obtain ⟨a, ha⟩ := genotype_suffix od l1
  obtain ⟨b, hb⟩ := phased_suffix od2 l2 c
  rw [ha, hb]
  exact str_ne_of_sufCmp (by decide) a b

/-- The ending of a join onto a component ending in the word phasing is that
final letter, never a slash. -/
theorem strEnds_append_phasing (x : String) : strEnds (x ++ "phasing") "/" = false := by
  unfold strEnds
  rw [String.data_append, List.reverse_append]
  have h7 : ("phasing" : String).data.reverse ++ x.data.reverse =
      'g' :: (("nisahp" : String).data ++ x.data.reverse) := rfl
  rw [h7]
  exact charsPre_slash_cons _ (by decide)

/-- The phasing working directory never ends with a slash. -/
theorem phasing_dir_not_slash_end (od : String) :
    strEnds (phasing_dir od) "/" = false := by
  unfold phasing_dir pjoin
  have h0 : strStarts "phasing" "/" = false := rfl
  rw [h0]
  simp only [Bool.false_eq_true, if_false]
  split
  · rfl
  · split
    · exact strEnds_append_phasing od
    · exact strEnds_append_phasing (od ++ "/")

/-- The phasing working directory is never the empty path. -/
theorem phasing_dir_ne_empty (od : String) : phasing_dir od ≠ "" := by
  unfold phasing_dir pjoin
  have h0 : strStarts "phasing" "/" = false := rfl
  rw [h0]
  simp only [Bool.false_eq_true, if_false]
  split
  · decide
  · split <;>
    · intro he
      have hd := congrArg List.length (congrArg String.data he)
      simp [String.data_append] at hd

/-- Joining a relative component under the phasing directory always inserts
one separator. -/
theorem pjoin_phasing (od B : String) (hB : strStarts B "/" = false) :
    pjoin (phasing_dir od) B = phasing_dir od ++ "/" ++ B := by
  unfold pjoin
  rw [hB, phasing_dir_not_slash_end od]
  simp [phasing_dir_ne_empty od]

/-- A slash free label makes the phasing component relative. -/
theorem strStarts_label_component (l r : String) (hl : noSlash l = true) :
    strStarts (l ++ "_" ++ r) "/" = false := by
  unfold strStarts
  have hs : ("/" : String).data = ['/'] := rfl
  rw [hs, String.data_append, String.data_append]
  have hu : ("_" : String).data = ['_'] := rfl
  rw [hu]
  cases hd : l.data with
  | nil => simp [charsPre]
  | cons c cs =>
    simp only [noSlash, List.all_eq_true, decide_eq_true_eq] at hl
    have hc : c ≠ '/' := hl c (hd ▸ List.mem_cons_self c cs)
    rw [List.cons_append, List.cons_append]
    exact charsPre_slash_cons _ hc

/-- Explicit form of a phased VCF path for a slash free label. -/
theorem phased_shape (od l c : String) (hl : noSlash l = true) :
    phased_vcf_fn od l c =
      phasing_dir od ++ "/" ++ (l ++ "_" ++ c ++ ".phased" ++ ".vcf.gz") := by
  unfold phased_vcf_fn out_prefix_fn
  have hB : strStarts (l ++ "_" ++ (c ++ ".phased")) "/" = false :=
    strStarts_label_component l (c ++ ".phased") hl
  have hB2 : strStarts (l ++ "_" ++ c ++ ".phased") "/" = false := by
    rw [String.append_assoc (l ++ "_") c ".phased"]
    exact hB
  rw [pjoin_phasing od _ hB2]
  rw [String.append_assoc (phasing_dir od ++ "/") (l ++ "_" ++ c ++ ".phased") ".vcf.gz"]

/-- A slash free component joined at the output root never lands inside the
phasing working directory. -/
theorem root_ne_under_phasing (od A Z : String) (hA : noSlash A = true) :
    pjoin od A ≠ phasing_dir od ++ "/" ++ Z := by
  have hAs : strStarts A "/" = false := strStarts_slash_false hA
  have h0 : strStarts "phasing" "/" = false := rfl
  have hA3 : ∀ c ∈ A.data, ¬ c = '/' := by
    simpa [noSlash, List.all_eq_true] using hA
  unfold phasing_dir pjoin
  rw [h0, hAs]
  simp only [Bool.false_eq_true, if_false]
  by_cases h1 : od = ""
  · rw [if_pos h1, if_pos h1]
    intro he
    have hmem : ('/' : Char) ∈ ("phasing" ++ "/" : String).data := by decide
    have hin : ('/' : Char) ∈ A.data := by
      rw [he, String.data_append]
      exact List.mem_append.mpr (Or.inl hmem)
    exact hA3 _ hin rfl
  · rw [if_neg h1, if_neg h1]
    by_cases h2 : strEnds od "/" = true
    · rw [if_pos h2, if_pos h2]
      intro he
      have hd := congrArg String.data he
      simp only [String.data_append, List.append_assoc] at hd
      have hA2 := List.append_cancel_left hd
      have hin : ('/' : Char) ∈ A.data := by
        rw [hA2]
        exact List.mem_append.mpr (Or.inr (List.mem_append.mpr (Or.inl (by decide))))
      exact hA3 _ hin rfl
    · rw [if_neg h2, if_neg h2]
      intro he
      have hd := congrArg String.data he
      simp only [String.data_append, List.append_assoc] at hd
      have hA2 := List.append_cancel_left (List.append_cancel_left hd)
      have hin : ('/' : Char) ∈ A.data := by
        rw [hA2]
        exact List.mem_append.mpr (Or.inr (List.mem_append.mpr (Or.inl (by decide))))
      exact hA3 _ hin rfl

/-- The final merged VCF path never coincides with a phased VCF path when
the labels are slash free. -/
theorem final_ne_phased (od l1 l2 c : String) (h1 : noSlash l1 = true)
    (h2 : noSlash l2 = true) : final_vcf_fn od l1 ≠ phased_vcf_fn od l2 c := by
  rw [phased_shape od l2 c h2]
  unfold final_vcf_fn
  exact root_ne_under_phasing od (l1 ++ ".phased.vcf.gz") _
    (noSlash_append h1 (by decide))

/-- The genotype VCF path determines the label when labels are slash free. -/
theorem genotype_inj_label {od l1 l2 : String} (h1 : noSlash l1 = true)
    (h2 : noSlash l2 = true)
    (he : genotype_vcf_fn od l1 = genotype_vcf_fn od l2) : l1 = l2 := by
  unfold genotype_vcf_fn at he
  have hss : strStarts (l1 ++ ".genotype.vcf.gz") "/" =
      strStarts (l2 ++ ".genotype.vcf.gz") "/" := by
    rw [strStarts_slash_false (noSlash_append h1 (by decide)),
      strStarts_slash_false (noSlash_append h2 (by decide))]
  exact str_append_right_cancel (pjoin_inj hss he)

/-- The final merged VCF path determines the label when labels are slash
free. -/
theorem final_inj_label {od l1 l2 : String} (h1 : noSlash l1 = true)
    (h2 : noSlash l2 = true)
    (he : final_vcf_fn od l1 = final_vcf_fn od l2) : l1 = l2 := by
  unfold final_vcf_fn at he
  have hss : strStarts (l1 ++ ".phased.vcf.gz") "/" =
      strStarts (l2 ++ ".phased.vcf.gz") "/" := by
    rw [strStarts_slash_false (noSlash_append h1 (by decide)),
      strStarts_slash_false (noSlash_append h2 (by decide))]
  exact str_append_right_cancel (pjoin_inj hss he)

/-- The slash starting status of a label underscore component ignores what
follows the underscore. -/
theorem strStarts_uscore_eq (l r1 r2 : String) :
    strStarts (l ++ "_" ++ r1) "/" = strStarts (l ++ "_" ++ r2) "/" := by
  unfold strStarts
  have hs : ("/" : String).data = ['/'] := rfl
  have hu : ("_" : String).data = ['_'] := rfl
  rw [hs]
  simp only [String.data_append, hu, List.append_assoc]
  cases hd : l.data with
  | nil => simp [charsPre]
  | cons c cs => simp [charsPre]

/-- For one label, distinct phased VCF paths come from distinct chromosomes,
whatever the label. -/
theorem phased_inj_chrom {od l c1 c2 : String}
    (he : phased_vcf_fn od l c1 = phased_vcf_fn od l c2) : c1 = c2 := by
  unfold phased_vcf_fn out_prefix_fn at he
  have h1 := str_append_right_cancel he
  have hss : strStarts (l ++ "_" ++ c1 ++ ".phased") "/" =
      strStarts (l ++ "_" ++ c2 ++ ".phased") "/" := by
    rw [String.append_assoc (l ++ "_") c1 ".phased",
      String.append_assoc (l ++ "_") c2 ".phased"]
    exact strStarts_uscore_eq l (c1 ++ ".phased") (c2 ++ ".phased")
  have h2 := pjoin_inj hss h1
  exact str_append_left_cancel (str_append_right_cancel h2)

/-- Equal phased VCF paths of slash free labels force equal label underscore
chromosome stems. -/
theorem phased_label_chrom {od l1 l2 c1 c2 : String} (h1 : noSlash l1 = true)
    (h2 : noSlash l2 = true)
    (he : phased_vcf_fn od l1 c1 = phased_vcf_fn od l2 c2) :
    l1 ++ "_" ++ c1 = l2 ++ "_" ++ c2 := by
  rw [phased_shape od l1 c1 h1, phased_shape od l2 c2 h2] at he
  have hz := str_append_left_cancel he
  exact str_append_right_cancel (str_append_right_cancel hz)

/-- Distinct chromosomes of the fixed target set have suffix incomparable
underscore stems. -/
theorem chrom_pair_clash : ∀ c1 ∈ chrom_list, ∀ c2 ∈ chrom_list, c1 ≠ c2 →
    sufCmp ("_" ++ c1).data ("_" ++ c2).data = false := by decide

/-- The fixed chromosome target list has no duplicates. -/
theorem chrom_nodup : chrom_list.Nodup := by decide

/-- Phased VCF paths of slash free labels are pairwise distinct across
distinct labels or distinct chromosomes of the target set. -/
theorem phased_ne {od l1 l2 c1 c2 : String} (h1 : noSlash l1 = true)
    (h2 : noSlash l2 = true) (hc1 : c1 ∈ chrom_list) (hc2 : c2 ∈ chrom_list)
    (hne : l1 ≠ l2 ∨ c1 ≠ c2) :
    phased_vcf_fn od l1 c1 ≠ phased_vcf_fn od l2 c2 := by
  intro he
  have hm := phased_label_chrom h1 h2 he
  by_cases hcc : c1 = c2
  · subst hcc
    have hl : l1 = l2 :=
      str_append_right_cancel (str_append_right_cancel hm)
    rcases hne with hne | hne
    · exact hne hl
    · exact hne rfl
  · have hclash := str_ne_of_sufCmp (chrom_pair_clash c1 hc1 c2 hc2 hcc) l1 l2
    apply hclash
    rw [String.append_assoc l1 "_" c1, String.append_assoc l2 "_" c2] at hm
    exact hm

/-! ## Partition bookkeeping lemmas -/

/-- The retention loop applied to the split result of a chromosome list is
filtering by positive count, with the file list mapped alongside. -/
theorem collectValid_map (counts : String → Nat) (sp : String → String)
    (cl : List String) :
    collectValid (cl.map fun c => (c, counts c, sp c)) =
      (cl.filter fun c => decide (0 < counts c),
       (cl.filter fun c => decide (0 < counts c)).map sp) := by
  induction cl with
  | nil => rfl
  | cons c rest ih =>
    simp only [List.map_cons, collectValid, ih, List.filter_cons]
    by_cases h : 0 < counts c
    · simp [h]
    · simp [h]

/-- The retained chromosomes are the targets with positive count, in
order. -/
theorem valid_chroms_eq (counts : String → Nat) (sp : String → String) :
    valid_chroms counts sp = chrom_list.filter fun c => decide (0 < counts c) := by
  unfold valid_chroms split_res
  rw [collectValid_map]

/-- The retained partition files are the split paths of the retained
chromosomes, aligned. -/
theorem target_eq (counts : String → Nat) (sp : String → String) :
    target_vcf_list counts sp = (valid_chroms counts sp).map sp := by
  unfold target_vcf_list valid_chroms split_res
  rw [collectValid_map]

/-- The merge set lists exactly the phased VCF paths of the retained
chromosomes, aligned. -/
theorem phased_list_eq (counts : String → Nat) (sp : String → String)
    (od l : String) :
    phased_vcf_list counts sp od l =
      (valid_chroms counts sp).map (phased_vcf_fn od l) := by
  unfold phased_vcf_list out_prefix_list
  rw [List.map_map]
  rfl

/-- Membership in the retained chromosome list. -/
theorem mem_valid_iff {counts : String → Nat} {sp : String → String}
    {c : String} :
    c ∈ valid_chroms counts sp ↔ c ∈ chrom_list ∧ 0 < counts c := by
  rw [valid_chroms_eq]
  simp [List.mem_filter]

/-- Each autosome number names a chromosome of the fixed target list. -/
theorem chr_mem_chrom_list {i : Nat} (h1 : 1 ≤ i) (h2 : i ≤ 22) :
    ("chr" ++ toString i) ∈ chrom_list := by
  unfold chrom_list
  exact List.mem_map.mpr ⟨i, List.mem_range'_1.mpr ⟨h1, by omega⟩, rfl⟩

/-! ## Claims about the partition bookkeeping -/

/-- Claim C1: for every chromosome chr1 to chr22, a reported variant count of
zero keeps the chromosome out of the retained phasing set and out of the
merge set, and a positive count puts it in both. -/
theorem claim_C1 (orc : Oracle) (od l : String) (i : Nat) (h1 : 1 ≤ i)
    (h2 : i ≤ 22) :
    (orc.counts ("chr" ++ toString i) = 0 →
      ("chr" ++ toString i) ∉ valid_chroms orc.counts orc.splitPath ∧
      phased_vcf_fn od l ("chr" ++ toString i) ∉
        phased_vcf_list orc.counts orc.splitPath od l) ∧
    (0 < orc.counts ("chr" ++ toString i) →
      ("chr" ++ toString i) ∈ valid_chroms orc.counts orc.splitPath ∧
      phased_vcf_fn od l ("chr" ++ toString i) ∈
        phased_vcf_list orc.counts orc.splitPath od l) := by
  constructor
  · intro h0
    have hnv : ("chr" ++ toString i) ∉ valid_chroms orc.counts orc.splitPath := by
      intro hv
      have := (mem_valid_iff.mp hv).2
      omega
    refine ⟨hnv, ?_⟩
    rw [phased_list_eq]
    intro hmem
    obtain ⟨c2, hc2v, hc2e⟩ := List.mem_map.mp hmem
    exact hnv (phased_inj_chrom hc2e ▸ hc2v)
  · intro hpos
    have hv : ("chr" ++ toString i) ∈ valid_chroms orc.counts orc.splitPath :=
      mem_valid_iff.mpr ⟨chr_mem_chrom_list h1 h2, hpos⟩
    refine ⟨hv, ?_⟩
    rw [phased_list_eq]
    exact List.mem_map.mpr ⟨_, hv, rfl⟩

/-- Witness for claim C1 at the concrete oracle: chr2 carries no variants and
is dropped, chr1 carries variants and is retained. -/
theorem claim_C1_witness :
    (("chr" ++ toString 2) ∉ valid_chroms demoOrc.counts demoOrc.splitPath ∧
      phased_vcf_fn "out" "S" ("chr" ++ toString 2) ∉
        phased_vcf_list demoOrc.counts demoOrc.splitPath "out" "S") ∧
    (("chr" ++ toString 1) ∈ valid_chroms demoOrc.counts demoOrc.splitPath ∧
      phased_vcf_fn "out" "S" ("chr" ++ toString 1) ∈
        phased_vcf_list demoOrc.counts demoOrc.splitPath "out" "S") :=
  ⟨(claim_C1 demoOrc "out" "S" 2 (by decide) (by decide)).1 (by decide),
   (claim_C1 demoOrc "out" "S" 1 (by decide) (by decide)).2 (by decide)⟩

/-- Claim C4: the four phasing lists are aligned index by index on the same
chromosome, have equal length, and follow the chromosome list order. -/
theorem claim_C4 (counts : String → Nat) (sp : String → String)
    (pd od l : String) :
    (target_vcf_list counts sp).length = (valid_chroms counts sp).length ∧
    (ref_vcf_list counts sp pd).length = (valid_chroms counts sp).length ∧
    (out_prefix_list counts sp od l).length = (valid_chroms counts sp).length ∧
    List.Sublist (valid_chroms counts sp) chrom_list ∧
    (∀ (i : Nat) (c : String), (valid_chroms counts sp)[i]? = some c →
      (target_vcf_list counts sp)[i]? = some (sp c) ∧
      (ref_vcf_list counts sp pd)[i]? = some (panel_bcf pd c) ∧
      (out_prefix_list counts sp od l)[i]? = some (out_prefix_fn od l c)) := by
  refine ⟨?_, ?_, ?_, ?_, ?_⟩
  · rw [target_eq]; simp
  · unfold ref_vcf_list; simp
  · unfold out_prefix_list; simp
  · rw [valid_chroms_eq]; exact List.filter_sublist _
  · intro i c hic
    refine ⟨?_, ?_, ?_⟩
    · rw [target_eq, List.getElem?_map, hic]; rfl
    · unfold ref_vcf_list; rw [List.getElem?_map, hic]; rfl
    · unfold out_prefix_list; rw [List.getElem?_map, hic]; rfl

/-- Witness for claim C4: at the concrete oracle the first retained
chromosome is chr1 and all three derived entries follow it. -/
theorem claim_C4_witness :
    (target_vcf_list demoOrc.counts demoOrc.splitPath)[0]? =
      some (demoOrc.splitPath "chr1") ∧
    (ref_vcf_list demoOrc.counts demoOrc.splitPath "panel")[0]? =
      some (panel_bcf "panel" "chr1") ∧
    (out_prefix_list demoOrc.counts demoOrc.splitPath "out" "S")[0]? =
      some (out_prefix_fn "out" "S" "chr1") :=
  (claim_C4 demoOrc.counts demoOrc.splitPath "panel" "out" "S").2.2.2.2 0 "chr1"
    (by decide)

/-- Claim C8: the genome build is hg19 exactly when the genetic map filename
holds the substring hg19, and hg38 in every other case. -/
theorem claim_C8 (g : String) :
    (genome_of g = "hg19" ↔ strHas g "hg19" = true) ∧
    (strHas g "hg19" = false → genome_of g = "hg38") := by
  unfold genome_of
  by_cases h : strHas g "hg19" = true
  · rw [if_pos h]
    refine ⟨⟨fun _ => h, fun _ => rfl⟩, fun hf => ?_⟩
    rw [h] at hf
    cases hf
  · rw [if_neg h]
    exact ⟨⟨fun he => absurd he (by decide), fun ht => absurd ht h⟩, fun _ => rfl⟩

/-- Witness for claim C8 on two concrete genetic map filenames. -/
theorem claim_C8_witness :
    genome_of "genetic_map_hg19_withX.txt.gz" = "hg19" ∧
    genome_of "genetic_map_hg38_withX.txt.gz" = "hg38" :=
  ⟨(claim_C8 "genetic_map_hg19_withX.txt.gz").1.mpr (by decide),
   (claim_C8 "genetic_map_hg38_withX.txt.gz").2 (by decide)⟩

/-- Counterexample to claim C9 as stated: with a label that contains a path
separator, two runs with different labels in the same output root share a
label derived path — the final merged VCF of the first run is exactly the
chr1 phased VCF of the second run. -/
theorem claim_C9_counterexample :
    ("phasing/b_chr1" : String) ≠ "b" ∧
    final_vcf_fn "out" "phasing/b_chr1" = phased_vcf_fn "out" "b" "chr1" ∧
    final_vcf_fn "out" "phasing/b_chr1" ∈ label_paths "out" "phasing/b_chr1" ∧
    phased_vcf_fn "out" "b" "chr1" ∈ label_paths "out" "b" := by decide

/-- Claim C9 amended: for labels that contain no path separator, the label
derived paths of one run are pairwise distinct, and two runs with different
labels in the same output root produce disjoint sets of label derived
paths. -/
theorem claim_C9 (od l1 l2 : String) (h1 : noSlash l1 = true)
    (h2 : noSlash l2 = true) :
    (label_paths od l1).Nodup ∧
    (l1 ≠ l2 → ∀ p ∈ label_paths od l1, p ∉ label_paths od l2) := by
  constructor
  · unfold label_paths
    refine List.nodup_cons.mpr ⟨?_, List.nodup_cons.mpr ⟨?_, ?_⟩⟩
    · intro hmem
      rcases List.mem_cons.mp hmem with he | hmem2
      · exact genotype_ne_final od l1 od l1 he
      · obtain ⟨c, _, hce⟩ := List.mem_map.mp hmem2
        exact genotype_ne_phased od l1 od l1 c hce.symm
    · intro hmem2
      obtain ⟨c, hc, hce⟩ := List.mem_map.mp hmem2
      exact final_ne_phased od l1 l1 c h1 h1 hce.symm
    · exact List.Nodup.map_on (fun x _ y _ he => phased_inj_chrom he) chrom_nodup
  · intro hne p hp hq
    unfold label_paths at hp hq
    rcases List.mem_cons.mp hp with hp | hp
    · subst hp
      rcases List.mem_cons.mp hq with hq | hq
      · exact hne (genotype_inj_label h1 h2 hq)
      · rcases List.mem_cons.mp hq with hq | hq
        · exact genotype_ne_final od l1 od l2 hq
        · obtain ⟨c, _, hce⟩ := List.mem_map.mp hq
          exact genotype_ne_phased od l1 od l2 c hce.symm
    · rcases List.mem_cons.mp hp with hp | hp
      · subst hp
        rcases List.mem_cons.mp hq with hq | hq
        · exact genotype_ne_final od l2 od l1 hq.symm
        · rcases List.mem_cons.mp hq with hq | hq
          · exact hne (final_inj_label h1 h2 hq)
          · obtain ⟨c, _, hce⟩ := List.mem_map.mp hq
            exact final_ne_phased od l1 l2 c h1 h2 hce.symm
      · obtain ⟨c, hc, hce⟩ := List.mem_map.mp hp
        subst hce
        rcases List.mem_cons.mp hq with hq | hq
        · exact genotype_ne_phased od l2 od l1 c hq.symm
        · rcases List.mem_cons.mp hq with hq | hq
          · exact final_ne_phased od l2 l1 c h2 h1 hq.symm
          · obtain ⟨c2, hc2, hce2⟩ := List.mem_map.mp hq
            exact phased_ne h1 h2 hc hc2 (Or.inl hne) hce2.symm

/-- Witness for the amended claim C9 at two concrete slash free labels. -/
theorem claim_C9_witness :
    (label_paths "out" "S").Nodup ∧
    genotype_vcf_fn "out" "S" ∉ label_paths "out" "T" :=
  ⟨(claim_C9 "out" "S" "T" (by decide) (by decide)).1,
   (claim_C9 "out" "S" "T" (by decide) (by decide)).2 (by decide)
     (genotype_vcf_fn "out" "S") (by decide)⟩

/-! ## Preflight lemmas -/

/-- A successful preflight pins down the configuration names, the resulting
state, and records that every preflight check passed. -/
theorem preflight_ok {cfg : Cfg} {fs0 : List String} {l od pd : String}
    {fs : List String} {tr : List Ev}
    (h : preflight cfg fs0 = (Except.ok (l, od, pd), fs, tr)) :
    cfg.label = some l ∧ cfg.out_dir = some od ∧ cfg.panel_dir = some pd ∧
    fs = mkdirFs fs0 od ∧ tr = mkdirTr fs0 od ∧
    (∃ s, cfg.snp_vcf_fn = some s ∧ hasStr fs0 s = true) ∧
    (∃ g, cfg.gmap_fn = some g ∧ hasStr (mkdirFs fs0 od) g = true) ∧
    (∃ e2, cfg.eagle_fn = some e2 ∧ hasStr (mkdirFs fs0 od) e2 = true) ∧
    hasStr (mkdirFs fs0 od) pd = true ∧
    panel_files_ok pd (mkdirFs fs0 od) = true := by
  rcases hlabel : cfg.label with _ | label
  · simp [preflight, hlabel] at h
  rcases hsnp : cfg.snp_vcf_fn with _ | snp
  · simp [preflight, hlabel, hsnp] at h
  by_cases hsnpe : hasStr fs0 snp = true
  swap
  · simp [preflight, hlabel, hsnp, hsnpe] at h
  rcases hod : cfg.out_dir with _ | od0
  · simp [preflight, hlabel, hsnp, hsnpe, hod] at h
  rcases hgmap : cfg.gmap_fn with _ | gmap
  · simp [preflight, hlabel, hsnp, hsnpe, hod, hgmap] at h
  by_cases hgmape : hasStr (mkdirFs fs0 od0) gmap = true
  swap
  · simp [preflight, hlabel, hsnp, hsnpe, hod, hgmap, hgmape] at h
  rcases heagle : cfg.eagle_fn with _ | eagle
  · simp [preflight, hlabel, hsnp, hsnpe, hod, hgmap, hgmape, heagle] at h
  by_cases heaglee : hasStr (mkdirFs fs0 od0) eagle = true
  swap
  · simp [preflight, hlabel, hsnp, hsnpe, hod, hgmap, hgmape, heagle,
      heaglee] at h
  rcases hpd : cfg.panel_dir with _ | pd0
  · simp [preflight, hlabel, hsnp, hsnpe, hod, hgmap, hgmape, heagle,
      heaglee, hpd] at h
  by_cases hpde : hasStr (mkdirFs fs0 od0) pd0 = true
  swap
  · simp [preflight, hlabel, hsnp, hsnpe, hod, hgmap, hgmape, heagle,
      heaglee, hpd, hpde] at h
  by_cases hpanel : panel_files_ok pd0 (mkdirFs fs0 od0) = true
  swap
  · simp [preflight, hlabel, hsnp, hsnpe, hod, hgmap, hgmape, heagle,
      heaglee, hpd, hpde, hpanel] at h
  have hred : preflight cfg fs0 =
      (Except.ok (label, od0, pd0), mkdirFs fs0 od0, mkdirTr fs0 od0) := by
    simp [preflight, hlabel, hsnp, hsnpe, hod, hgmap, hgmape, heagle,
      heaglee, hpd, hpde, hpanel]
  rw [hred] at h
  simp only [Prod.mk.injEq, Except.ok.injEq] at h
  obtain ⟨⟨ha, hb, hc⟩, hd, he⟩ := h
  subst ha
  subst hb
  subst hc
  exact ⟨rfl, rfl, rfl, hd.symm, he.symm, ⟨snp, rfl, hsnpe⟩,
    ⟨gmap, rfl, hgmape⟩, ⟨eagle, rfl, heaglee⟩, hpde, hpanel⟩

/-- Membership characterization of the conditional creation trace. -/
theorem mem_mkdirTr_iff {e : Ev} {fs : List String} {d : String} :
    e ∈ mkdirTr fs d ↔ hasStr fs d = false ∧ e = Ev.mkdir d := by
  unfold mkdirTr
  split
  · next h => simp [h]
  · next h =>
    have hf : hasStr fs d = false := by
      revert h
      cases hasStr fs d <;> simp
    simp [hf]

/-- When all preflight checks up to the output directory pass, the preflight
state is the one after the conditional creation of the output directory,
whatever happens later. -/
theorem preflight_state {cfg : Cfg} {fs0 : List String} {l s od : String}
    (hlabel : cfg.label = some l) (hsnp : cfg.snp_vcf_fn = some s)
    (hsnpe : hasStr fs0 s = true) (hod : cfg.out_dir = some od) :
    (preflight cfg fs0).2 = (mkdirFs fs0 od, mkdirTr fs0 od) := by
  rcases hgmap : cfg.gmap_fn with _ | gmap
  · simp [preflight, hlabel, hsnp, hsnpe, hod, hgmap]
  by_cases hgmape : hasStr (mkdirFs fs0 od) gmap = true
  swap
  · simp [preflight, hlabel, hsnp, hsnpe, hod, hgmap, hgmape]
  rcases heagle : cfg.eagle_fn with _ | eagle
  · simp [preflight, hlabel, hsnp, hsnpe, hod, hgmap, hgmape, heagle]
  by_cases heaglee : hasStr (mkdirFs fs0 od) eagle = true
  swap
  · simp [preflight, hlabel, hsnp, hsnpe, hod, hgmap, hgmape, heagle, heaglee]
  rcases hpd : cfg.panel_dir with _ | pd0
  · simp [preflight, hlabel, hsnp, hsnpe, hod, hgmap, hgmape, heagle,
      heaglee, hpd]
  by_cases hpde : hasStr (mkdirFs fs0 od) pd0 = true
  swap
  · simp [preflight, hlabel, hsnp, hsnpe, hod, hgmap, hgmape, heagle,
      heaglee, hpd, hpde]
  by_cases hpanel : panel_files_ok pd0 (mkdirFs fs0 od) = true
  swap
  · simp [preflight, hlabel, hsnp, hsnpe, hod, hgmap, hgmape, heagle,
      heaglee, hpd, hpde, hpanel]
  simp [preflight, hlabel, hsnp, hsnpe, hod, hgmap, hgmape, heagle,
    heaglee, hpd, hpde, hpanel]

/-- The preflight state is either untouched or the state after the
conditional creation of the configured output directory. -/
theorem preflight_state_cases (cfg : Cfg) (fs0 : List String) :
    (preflight cfg fs0).2 = (fs0, []) ∨
    ∃ od, cfg.out_dir = some od ∧
      (preflight cfg fs0).2 = (mkdirFs fs0 od, mkdirTr fs0 od) := by
  rcases hlabel : cfg.label with _ | label
  · simp [preflight, hlabel]
  rcases hsnp : cfg.snp_vcf_fn with _ | snp
  · simp [preflight, hlabel, hsnp]
  by_cases hsnpe : hasStr fs0 snp = true
  swap
  · simp [preflight, hlabel, hsnp, hsnpe]
  rcases hod : cfg.out_dir with _ | od0
  · simp [preflight, hlabel, hsnp, hsnpe, hod]
  exact Or.inr ⟨od0, rfl, preflight_state hlabel hsnp hsnpe hod⟩

/-- Every event recorded by preflight is the creation of the configured
output directory. -/
theorem preflight_tr {cfg : Cfg} {fs0 : List String} {e : Ev}
    (h : e ∈ (preflight cfg fs0).2.2) :
    ∃ od, cfg.out_dir = some od ∧ e = Ev.mkdir od := by
  rcases preflight_state_cases cfg fs0 with hc | ⟨od, hod, hc⟩
  · rw [show (preflight cfg fs0).2.2 = ((preflight cfg fs0).2).2 from rfl, hc] at h
    cases h
  · rw [show (preflight cfg fs0).2.2 = ((preflight cfg fs0).2).2 from rfl, hc] at h
    exact ⟨od, hod, (mem_mkdirTr_iff.mp h).2⟩

/-- The filesystem never shrinks across preflight. -/
theorem preflight_fs_mono {cfg : Cfg} {fs0 : List String} :
    fs0 ⊆ (preflight cfg fs0).2.1 := by
  rcases preflight_state_cases cfg fs0 with hc | ⟨od, _, hc⟩
  · rw [show (preflight cfg fs0).2.1 = ((preflight cfg fs0).2).1 from rfl, hc]
    exact fun p hp => hp
  · rw [show (preflight cfg fs0).2.1 = ((preflight cfg fs0).2).1 from rfl, hc]
    exact mkdirFs_subset fs0 od

/-- A successful preflight routes the run into the stage sequence. -/
theorem runBaf_of_preflight_ok {cfg : Cfg} {fs0 : List String}
    {l od pd : String} {fs : List String} {tr : List Ev} (orc : Oracle)
    (h : preflight cfg fs0 = (Except.ok (l, od, pd), fs, tr)) :
    runBaf cfg orc fs0 = stages l od pd cfg orc fs tr := by
  unfold runBaf
  rw [h]

/-- A failed preflight aborts the run with the preflight state. -/
theorem runBaf_of_preflight_err {cfg : Cfg} {fs0 : List String} {e : String}
    {fs : List String} {tr : List Ev} (orc : Oracle)
    (h : preflight cfg fs0 = (Except.error e, fs, tr)) :
    runBaf cfg orc fs0 = ⟨Except.error e, fs, tr⟩ := by
  unfold runBaf
  rw [h]

/-! ## Stage sequence lemmas -/

/-- When an expected phased VCF is absent from the final filesystem, the
stage sequence fails. -/
theorem stages_err_of_missing {l od pd : String} {cfg : Cfg} {orc : Oracle}
    {fs : List String} {tr : List Ev}
    (hmiss : ∃ fn ∈ phased_vcf_list orc.counts orc.splitPath od l,
      fn ∉ (stages l od pd cfg orc fs tr).fs) :
    ∃ e, (stages l od pd cfg orc fs tr).result = Except.error e := by
  simp only [stages] at hmiss ⊢
  split_ifs at hmiss ⊢
  any_goals exact ⟨_, rfl⟩
  all_goals
    obtain ⟨fn, hfn, hnot⟩ := hmiss
  all_goals rename_i hall
  all_goals
    exact absurd
      (List.mem_cons_of_mem _ (hasStr_iff.mp (List.all_eq_true.mp hall fn hfn)))
      hnot

/-- A recorded merge invocation forces a successful stage sequence in which
every expected phased VCF is present. -/
theorem stages_merge_mem {l od pd : String} {cfg : Cfg} {orc : Oracle}
    {fs : List String} {tr : List Ev} {i : List String} {o : String}
    (htr : ∀ i2 o2, Ev.merge i2 o2 ∉ tr)
    (h : Ev.merge i o ∈ (stages l od pd cfg orc fs tr).trace) :
    (stages l od pd cfg orc fs tr).result = Except.ok () ∧
    ∀ fn ∈ phased_vcf_list orc.counts orc.splitPath od l,
      fn ∈ (stages l od pd cfg orc fs tr).fs := by
  simp only [stages] at h ⊢
  split_ifs at h ⊢
  all_goals try
    · rename_i hall
      refine ⟨rfl, ?_⟩
      intro fn hfn
      exact List.mem_cons_of_mem _
        (hasStr_iff.mp (List.all_eq_true.mp hall fn hfn))
  all_goals
    exfalso
    simp only [List.mem_append, List.mem_singleton, mem_mkdirTr_iff,
      List.mem_map] at h
    simp at h
    exact htr i o h

/-! ## Claims about the merge stage -/

/-- Claim C2: if any expected per chromosome phased file is absent the
pipeline fails with no merge invocation recorded (so no merged output is
written), and the merge runs only when every expected path exists. -/
theorem claim_C2 (cfg : Cfg) (orc : Oracle) (fs0 : List String) (l od : String)
    (hl : cfg.label = some l) (hod : cfg.out_dir = some od) :
    ((∃ fn ∈ phased_vcf_list orc.counts orc.splitPath od l,
        fn ∉ (runBaf cfg orc fs0).fs) →
      (∃ e, (runBaf cfg orc fs0).result = Except.error e) ∧
      ∀ i o, Ev.merge i o ∉ (runBaf cfg orc fs0).trace) ∧
    (∀ i o, Ev.merge i o ∈ (runBaf cfg orc fs0).trace →
      ∀ fn ∈ phased_vcf_list orc.counts orc.splitPath od l,
        fn ∈ (runBaf cfg orc fs0).fs) := by
  have hnomergetr : ∀ i o, Ev.merge i o ∉ (preflight cfg fs0).2.2 := by
    intro i o hmem
    obtain ⟨_, _, habs⟩ := preflight_tr hmem
    cases habs
  rcases hpf : preflight cfg fs0 with ⟨res, fs1, tr1⟩
  have htr1 : ∀ i o, Ev.merge i o ∉ tr1 := by
    intro i o
    have hx := hnomergetr i o
    rw [hpf] at hx
    exact hx
  rcases res with e | ⟨l', od', pd'⟩
  · rw [runBaf_of_preflight_err orc hpf]
    exact ⟨fun _ => ⟨⟨e, rfl⟩, htr1⟩, fun i o hmem => absurd hmem (htr1 i o)⟩
  · obtain ⟨hlab, hodc, _, hfs1, htr1e, _⟩ := preflight_ok hpf
    have hl2 : l' = l := Option.some.inj (hlab ▸ hl)
    have hod2 : od' = od := Option.some.inj (hodc ▸ hod)
    subst hl2
    subst hod2
    rw [runBaf_of_preflight_ok orc hpf]
    constructor
    · intro hmiss
      refine ⟨stages_err_of_missing hmiss, ?_⟩
      intro i o hmem
      have hres := (stages_merge_mem htr1 hmem).1
      obtain ⟨e2, he2⟩ := stages_err_of_missing hmiss
      rw [hres] at he2
      cases he2
    · intro i o hmem
      exact (stages_merge_mem htr1 hmem).2

/-- Witness for claim C2: with the phasing engine silently failing on chr5
the pipeline errors out and records no merge invocation. -/
theorem claim_C2_witness :
    ((∃ e, (runBaf demoCfg
        { demoOrc with phasedOk := fun c => c ≠ "chr5" } demoFs).result =
        Except.error e) ∧
      ∀ i o, Ev.merge i o ∉ (runBaf demoCfg
        { demoOrc with phasedOk := fun c => c ≠ "chr5" } demoFs).trace) ∧
    (∀ fn ∈ phased_vcf_list demoOrc.counts demoOrc.splitPath "out" "S",
      fn ∈ (runBaf demoCfg demoOrc demoFs).fs) := by
  constructor
  · exact (claim_C2 demoCfg { demoOrc with phasedOk := fun c => c ≠ "chr5" }
      demoFs "S" "out" rfl rfl).1 (by decide)
  · exact (claim_C2 demoCfg demoOrc demoFs "S" "out" rfl rfl).2
      (phased_vcf_list demoOrc.counts demoOrc.splitPath "out" "S")
      (final_vcf_fn "out" "S") (by decide)

/-- A recorded phasing invocation carries exactly the retained target list,
and the trace splits so that every retained target had its indexing recorded
strictly before the phasing invocation. -/
theorem stages_phase {l od pd : String} {cfg : Cfg} {orc : Oracle}
    {fs : List String} {tr : List Ev} {t r p : List String}
    (htr : ∀ t2 r2 p2, Ev.phase t2 r2 p2 ∉ tr)
    (h : Ev.phase t r p ∈ (stages l od pd cfg orc fs tr).trace) :
    t = target_vcf_list orc.counts orc.splitPath ∧
    ∃ tr1 tr2, (stages l od pd cfg orc fs tr).trace = tr1 ++ tr2 ∧
      (∀ fn ∈ target_vcf_list orc.counts orc.splitPath, Ev.index fn ∈ tr1) ∧
      Ev.phase t r p ∈ tr2 := by
  by_cases hsam : cfg.sam_fn.isSome = cfg.sam_list_fn.isSome
  · exfalso
    simp [stages, hsam, mem_mkdirTr_iff] at h
    exact htr t r p h
  by_cases hpu : hasStr (pileup_out_fs od orc fs) (pileup_vcf_fn od) = true
  swap
  · exfalso
    simp [stages, hsam, hpu, mem_mkdirTr_iff] at h
    exact htr t r p h
  by_cases hall : ((phased_vcf_list orc.counts orc.splitPath od l).all
      fun fn => hasStr (post_phasing_fs l od orc fs) fn) = true
  · have hred : stages l od pd cfg orc fs tr =
        ⟨Except.ok (), final_vcf_fn od l :: post_phasing_fs l od orc fs,
          (tr ++ mkdirTr fs (pileup_dir od) ++ [Ev.pileup] ++
            mkdirTr (pileup_out_fs od orc fs) (phasing_dir od) ++
            [Ev.addGenotype (genotype_vcf_fn od l)] ++ [Ev.split] ++
            (target_vcf_list orc.counts orc.splitPath).map Ev.index ++
            [Ev.phase (target_vcf_list orc.counts orc.splitPath)
              (ref_vcf_list orc.counts orc.splitPath pd)
              (out_prefix_list orc.counts orc.splitPath od l)]) ++
          [Ev.merge (phased_vcf_list orc.counts orc.splitPath od l)
            (final_vcf_fn od l)]⟩ := by
      simp [stages, hsam, hpu, hall]
    rw [hred] at h ⊢
    have hteq : t = target_vcf_list orc.counts orc.splitPath ∧
        r = ref_vcf_list orc.counts orc.splitPath pd ∧
        p = out_prefix_list orc.counts orc.splitPath od l := by
      simp only [List.mem_append, List.mem_singleton, mem_mkdirTr_iff,
        List.mem_map] at h
      simp at h
      rcases h with h | h
      · exact absurd h (htr t r p)
      · exact h
    obtain ⟨hteq1, hteq2, hteq3⟩ := hteq
    subst hteq1
    subst hteq2
    subst hteq3
    refine ⟨rfl, tr ++ mkdirTr fs (pileup_dir od) ++ [Ev.pileup] ++
        mkdirTr (pileup_out_fs od orc fs) (phasing_dir od) ++
        [Ev.addGenotype (genotype_vcf_fn od l)] ++ [Ev.split] ++
        (target_vcf_list orc.counts orc.splitPath).map Ev.index,
      [Ev.phase (target_vcf_list orc.counts orc.splitPath)
        (ref_vcf_list orc.counts orc.splitPath pd)
        (out_prefix_list orc.counts orc.splitPath od l),
       Ev.merge (phased_vcf_list orc.counts orc.splitPath od l)
         (final_vcf_fn od l)], by simp, ?_, by simp⟩
    intro fn hfn
    exact List.mem_append_right _ (List.mem_map.mpr ⟨fn, hfn, rfl⟩)
  · have hred : stages l od pd cfg orc fs tr =
        ⟨Except.error "phased vcf missing", post_phasing_fs l od orc fs,
          tr ++ mkdirTr fs (pileup_dir od) ++ [Ev.pileup] ++
            mkdirTr (pileup_out_fs od orc fs) (phasing_dir od) ++
            [Ev.addGenotype (genotype_vcf_fn od l)] ++ [Ev.split] ++
            (target_vcf_list orc.counts orc.splitPath).map Ev.index ++
            [Ev.phase (target_vcf_list orc.counts orc.splitPath)
              (ref_vcf_list orc.counts orc.splitPath pd)
              (out_prefix_list orc.counts orc.splitPath od l)]⟩ := by
      simp [stages, hsam, hpu, hall]
    rw [hred] at h ⊢
    have hteq : t = target_vcf_list orc.counts orc.splitPath ∧
        r = ref_vcf_list orc.counts orc.splitPath pd ∧
        p = out_prefix_list orc.counts orc.splitPath od l := by
      simp only [List.mem_append, List.mem_singleton, mem_mkdirTr_iff,
        List.mem_map] at h
      simp at h
      rcases h with h | h
      · exact absurd h (htr t r p)
      · exact h
    obtain ⟨hteq1, hteq2, hteq3⟩ := hteq
    subst hteq1
    subst hteq2
    subst hteq3
    refine ⟨rfl, tr ++ mkdirTr fs (pileup_dir od) ++ [Ev.pileup] ++
        mkdirTr (pileup_out_fs od orc fs) (phasing_dir od) ++
        [Ev.addGenotype (genotype_vcf_fn od l)] ++ [Ev.split] ++
        (target_vcf_list orc.counts orc.splitPath).map Ev.index,
      [Ev.phase (target_vcf_list orc.counts orc.splitPath)
        (ref_vcf_list orc.counts orc.splitPath pd)
        (out_prefix_list orc.counts orc.splitPath od l)], rfl, ?_, by simp⟩
    intro fn hfn
    exact List.mem_append_right _ (List.mem_map.mpr ⟨fn, hfn, rfl⟩)

/-- Claim C5: whenever the phasing engine is invoked, its target list is
exactly the retained partition list, and for every chromosome with a
positive variant count the partition file of that chromosome is among the
targets and its indexing is recorded strictly before the phasing
invocation. -/
theorem claim_C5 (cfg : Cfg) (orc : Oracle) (fs0 : List String)
    (t r p : List String)
    (h : Ev.phase t r p ∈ (runBaf cfg orc fs0).trace) :
    t = target_vcf_list orc.counts orc.splitPath ∧
    ∀ c ∈ chrom_list, 0 < orc.counts c →
      orc.splitPath c ∈ t ∧
      ∃ tr1 tr2, (runBaf cfg orc fs0).trace = tr1 ++ tr2 ∧
        Ev.index (orc.splitPath c) ∈ tr1 ∧ Ev.phase t r p ∈ tr2 := by
  have hnoph : ∀ t2 r2 p2, Ev.phase t2 r2 p2 ∉ (preflight cfg fs0).2.2 := by
    intro t2 r2 p2 hmem
    obtain ⟨_, _, habs⟩ := preflight_tr hmem
    cases habs
  rcases hpf : preflight cfg fs0 with ⟨res, fs1, tr1⟩
  have htr1 : ∀ t2 r2 p2, Ev.phase t2 r2 p2 ∉ tr1 := by
    intro t2 r2 p2
    have hx := hnoph t2 r2 p2
    rw [hpf] at hx
    exact hx
  rcases res with e | ⟨l', od', pd'⟩
  · rw [runBaf_of_preflight_err orc hpf] at h
    exact absurd h (htr1 t r p)
  · rw [runBaf_of_preflight_ok orc hpf] at h ⊢
    obtain ⟨ht, tra, trb, htrab, hidx, hph⟩ := stages_phase htr1 h
    subst ht
    refine ⟨rfl, fun c hc hpos => ?_⟩
    have hmem : orc.splitPath c ∈ target_vcf_list orc.counts orc.splitPath := by
      rw [target_eq]
      exact List.mem_map.mpr ⟨c, mem_valid_iff.mpr ⟨hc, hpos⟩, rfl⟩
    exact ⟨hmem, tra, trb, htrab, hidx _ hmem, hph⟩

/-- Witness for claim C5 at the concrete run: the chr1 partition is a target
of the recorded phasing invocation and its indexing precedes it. -/
theorem claim_C5_witness :
    demoOrc.splitPath "chr1" ∈ target_vcf_list demoOrc.counts demoOrc.splitPath ∧
    ∃ tr1 tr2, (runBaf demoCfg demoOrc demoFs).trace = tr1 ++ tr2 ∧
      Ev.index (demoOrc.splitPath "chr1") ∈ tr1 ∧
      Ev.phase (target_vcf_list demoOrc.counts demoOrc.splitPath)
        (ref_vcf_list demoOrc.counts demoOrc.splitPath "panel")
        (out_prefix_list demoOrc.counts demoOrc.splitPath "out" "S") ∈ tr2 :=
  (claim_C5 demoCfg demoOrc demoFs
      (target_vcf_list demoOrc.counts demoOrc.splitPath)
      (ref_vcf_list demoOrc.counts demoOrc.splitPath "panel")
      (out_prefix_list demoOrc.counts demoOrc.splitPath "out" "S")
      (by decide)).2 "chr1" (by decide) (by decide)

/-! ## Claims about preflight -/

/-- Claim C3: when any of the 22 reference panel file pairs is missing, the
pipeline aborts during preflight — the run fails, the pileup stage is never
invoked, and neither pipeline subdirectory (pileup or phasing) is ever
created. -/
theorem claim_C3 (cfg : Cfg) (orc : Oracle) (fs0 : List String) (pd : String)
    (hpd : cfg.panel_dir = some pd)
    (hmiss : ∃ n ∈ List.range' 1 22,
      (panel_bcf pd ("chr" ++ toString n) ∉ fs0 ∧
        cfg.out_dir ≠ some (panel_bcf pd ("chr" ++ toString n))) ∨
      (panel_csi pd ("chr" ++ toString n) ∉ fs0 ∧
        cfg.out_dir ≠ some (panel_csi pd ("chr" ++ toString n)))) :
    (∃ e, (runBaf cfg orc fs0).result = Except.error e) ∧
    Ev.pileup ∉ (runBaf cfg orc fs0).trace ∧
    ∀ od, cfg.out_dir = some od →
      Ev.mkdir (pileup_dir od) ∉ (runBaf cfg orc fs0).trace ∧
      Ev.mkdir (phasing_dir od) ∉ (runBaf cfg orc fs0).trace := by
  rcases hpf : preflight cfg fs0 with ⟨res, fs1, tr1⟩
  rcases res with e | ⟨l', od', pd'⟩
  · rw [runBaf_of_preflight_err orc hpf]
    refine ⟨⟨e, rfl⟩, ?_, ?_⟩
    · intro hmem
      have hmem2 : Ev.pileup ∈ (preflight cfg fs0).2.2 := by
        rw [hpf]
        exact hmem
      obtain ⟨_, _, habs⟩ := preflight_tr hmem2
      cases habs
    · intro od hod
      constructor
      · intro hmem
        have hmem2 : Ev.mkdir (pileup_dir od) ∈ (preflight cfg fs0).2.2 := by
          rw [hpf]
          exact hmem
        obtain ⟨od2, hod2, habs⟩ := preflight_tr hmem2
        have hodeq : od2 = od := Option.some.inj (hod2 ▸ hod)
        have hpe : pileup_dir od = od2 := Ev.mkdir.inj habs
        rw [hodeq] at hpe
        exact pjoin_ne_left (by decide) (by decide) hpe
      · intro hmem
        have hmem2 : Ev.mkdir (phasing_dir od) ∈ (preflight cfg fs0).2.2 := by
          rw [hpf]
          exact hmem
        obtain ⟨od2, hod2, habs⟩ := preflight_tr hmem2
        have hodeq : od2 = od := Option.some.inj (hod2 ▸ hod)
        have hpe : phasing_dir od = od2 := Ev.mkdir.inj habs
        rw [hodeq] at hpe
        exact pjoin_ne_left (by decide) (by decide) hpe
  · exfalso
    obtain ⟨_, hodc, hpdc, hfs1, _, _, _, _, _, hpanel⟩ := preflight_ok hpf
    have hpd2 : pd' = pd := Option.some.inj (hpdc ▸ hpd)
    rw [hpd2] at hpanel
    obtain ⟨n, hn, hcase⟩ := hmiss
    have hall := List.all_eq_true.mp hpanel n hn
    rw [Bool.and_eq_true] at hall
    rcases hcase with ⟨hb1, hb2⟩ | ⟨hb1, hb2⟩
    · have hb3 : panel_bcf pd ("chr" ++ toString n) ∈ mkdirFs fs0 od' :=
        hasStr_iff.mp hall.1
      rcases mem_of_mkdirFs hb3 with hb4 | hb4
      · exact hb2 (hb4 ▸ hodc)
      · exact hb1 hb4
    · have hb3 : panel_csi pd ("chr" ++ toString n) ∈ mkdirFs fs0 od' :=
        hasStr_iff.mp hall.2
      rcases mem_of_mkdirFs hb3 with hb4 | hb4
      · exact hb2 (hb4 ▸ hodc)
      · exact hb1 hb4

/-- Witness for claim C3: with the chr13 index file removed from the panel
the run aborts with no pileup invocation and no pileup directory. -/
theorem claim_C3_witness :
    (∃ e, (runBaf demoCfg demoOrc
      (demoFs.filter fun q =>
        decide (q ≠ panel_csi "panel" "chr13"))).result = Except.error e) ∧
    Ev.pileup ∉ (runBaf demoCfg demoOrc
      (demoFs.filter fun q => decide (q ≠ panel_csi "panel" "chr13"))).trace ∧
    ∀ od, demoCfg.out_dir = some od →
      Ev.mkdir (pileup_dir od) ∉ (runBaf demoCfg demoOrc
        (demoFs.filter fun q =>
          decide (q ≠ panel_csi "panel" "chr13"))).trace ∧
      Ev.mkdir (phasing_dir od) ∉ (runBaf demoCfg demoOrc
        (demoFs.filter fun q =>
          decide (q ≠ panel_csi "panel" "chr13"))).trace :=
  claim_C3 demoCfg demoOrc
    (demoFs.filter fun q => decide (q ≠ panel_csi "panel" "chr13")) "panel" rfl
    ⟨13, by decide, Or.inr ⟨by decide, by decide⟩⟩

/-- When every preflight check passes, preflight succeeds with the
configured names. -/
theorem preflight_ok_of {cfg : Cfg} {fs0 : List String}
    {l s od g e2 pd : String}
    (hlabel : cfg.label = some l) (hsnp : cfg.snp_vcf_fn = some s)
    (hsnpe : hasStr fs0 s = true) (hod : cfg.out_dir = some od)
    (hgmap : cfg.gmap_fn = some g) (hgmape : hasStr (mkdirFs fs0 od) g = true)
    (heagle : cfg.eagle_fn = some e2)
    (heaglee : hasStr (mkdirFs fs0 od) e2 = true)
    (hpd : cfg.panel_dir = some pd) (hpde : hasStr (mkdirFs fs0 od) pd = true)
    (hpanel : panel_files_ok pd (mkdirFs fs0 od) = true) :
    preflight cfg fs0 =
      (Except.ok (l, od, pd), mkdirFs fs0 od, mkdirTr fs0 od) := by
  simp [preflight, hlabel, hsnp, hsnpe, hod, hgmap, hgmape, heagle, heaglee,
    hpd, hpde, hpanel]

/-- Counterexample to claim C6 as stated: with both mutually exclusive
alignment arguments set and every preflight input present, the run still
reaches the pileup stage — the pileup directory is created and the pileup
adapter is invoked, so the configuration error is not detected before the
pileup call. -/
theorem claim_C6_counterexample :
    ({ demoCfg with sam_list_fn := some "l.txt" } : Cfg).sam_fn.isSome = true ∧
    ({ demoCfg with sam_list_fn := some "l.txt" } : Cfg).sam_list_fn.isSome
      = true ∧
    Ev.pileup ∈ (runBaf { demoCfg with sam_list_fn := some "l.txt" }
      demoOrc demoFs).trace ∧
    Ev.mkdir (pileup_dir "out") ∈ (runBaf
      { demoCfg with sam_list_fn := some "l.txt" } demoOrc demoFs).trace := by
  decide

/-- Claim C6 amended: preflight checks the label, candidate SNP VCF, genetic
map, phasing binary, panel directory and the 22 panel pairs before any stage
runs, but the mutually exclusive alignment arguments are not examined before
the pileup adapter is invoked: with both or neither set and all preflight
checks passing, the pileup invocation is still recorded, and the pipeline
then fails inside the pileup stage. -/
theorem claim_C6 (cfg : Cfg) (orc : Oracle) (fs0 : List String)
    (l s od g e2 pd : String)
    (h1 : cfg.label = some l) (h2 : cfg.snp_vcf_fn = some s)
    (h3 : hasStr fs0 s = true) (h4 : cfg.out_dir = some od)
    (h5 : cfg.gmap_fn = some g) (h6 : hasStr (mkdirFs fs0 od) g = true)
    (h7 : cfg.eagle_fn = some e2)
    (h8 : hasStr (mkdirFs fs0 od) e2 = true)
    (h9 : cfg.panel_dir = some pd) (h10 : hasStr (mkdirFs fs0 od) pd = true)
    (h11 : panel_files_ok pd (mkdirFs fs0 od) = true)
    (hbad : cfg.sam_fn.isSome = cfg.sam_list_fn.isSome) :
    Ev.pileup ∈ (runBaf cfg orc fs0).trace ∧
    ∃ e, (runBaf cfg orc fs0).result = Except.error e := by
  rw [runBaf_of_preflight_ok orc
    (preflight_ok_of h1 h2 h3 h4 h5 h6 h7 h8 h9 h10 h11)]
  constructor
  · simp [stages, hbad]
  · refine ⟨"pileup: one and only one of sam and samlist", ?_⟩
    simp [stages, hbad]

/-- Witness for the amended claim C6 at the concrete bad configuration. -/
theorem claim_C6_witness :
    Ev.pileup ∈ (runBaf { demoCfg with sam_list_fn := some "l.txt" }
      demoOrc demoFs).trace ∧
    ∃ e, (runBaf { demoCfg with sam_list_fn := some "l.txt" }
      demoOrc demoFs).result = Except.error e :=
  claim_C6 { demoCfg with sam_list_fn := some "l.txt" } demoOrc demoFs
    "S" "snp.vcf.gz" "out" "gmap_hg38.txt.gz" "eagle2" "panel"
    rfl rfl (by decide) rfl rfl (by decide) rfl (by decide) rfl (by decide)
    (by decide) (by decide)

/-- Claim C10: preflight is not atomic on the filesystem — a label or
candidate SNP failure aborts before the output directory is created (state
untouched, empty trace), while a later preflight failure (genetic map,
phasing binary, panel directory, or panel pair) happens after the absent
output directory was created, which is left behind on the error path. -/
theorem claim_C10 (cfg : Cfg) (orc : Oracle) (fs0 : List String) :
    ((cfg.label = none ∨ cfg.snp_vcf_fn = none ∨
      (∃ s, cfg.snp_vcf_fn = some s ∧ hasStr fs0 s = false)) →
      (∃ e, (runBaf cfg orc fs0).result = Except.error e) ∧
      (runBaf cfg orc fs0).fs = fs0 ∧ (runBaf cfg orc fs0).trace = []) ∧
    (∀ l s od, cfg.label = some l → cfg.snp_vcf_fn = some s →
      hasStr fs0 s = true → cfg.out_dir = some od → hasStr fs0 od = false →
      (cfg.gmap_fn = none ∨
        (∃ g, cfg.gmap_fn = some g ∧ hasStr (od :: fs0) g = false) ∨
        cfg.eagle_fn = none ∨
        (∃ g, cfg.eagle_fn = some g ∧ hasStr (od :: fs0) g = false) ∨
        cfg.panel_dir = none ∨
        (∃ p, cfg.panel_dir = some p ∧ hasStr (od :: fs0) p = false) ∨
        (∃ p, cfg.panel_dir = some p ∧
          panel_files_ok p (od :: fs0) = false)) →
      (∃ e, (runBaf cfg orc fs0).result = Except.error e) ∧
      od ∈ (runBaf cfg orc fs0).fs ∧
      Ev.mkdir od ∈ (runBaf cfg orc fs0).trace) := by
  constructor
  · intro hfail
    have hpf : ∃ e, preflight cfg fs0 = (Except.error e, fs0, []) := by
      rcases hfail with hlabel | hsnp | ⟨s, hs, hse⟩
      · exact ⟨"label is not set", by simp [preflight, hlabel]⟩
      · rcases hl : cfg.label with _ | l0
        · exact ⟨"label is not set", by simp [preflight, hl]⟩
        · exact ⟨"snpvcf is not set", by simp [preflight, hl, hsnp]⟩
      · rcases hl : cfg.label with _ | l0
        · exact ⟨"label is not set", by simp [preflight, hl]⟩
        · exact ⟨"snpvcf missing", by simp [preflight, hl, hs, hse]⟩
    obtain ⟨e, hpf⟩ := hpf
    rw [runBaf_of_preflight_err orc hpf]
    exact ⟨⟨e, rfl⟩, rfl, rfl⟩
  · intro l s od hl hs hse hod hodf hfail
    have hmk : mkdirFs fs0 od = od :: fs0 := mkdirFs_of_absent hodf
    have hmt : mkdirTr fs0 od = [Ev.mkdir od] := mkdirTr_of_absent hodf
    have hstate := preflight_state hl hs hse hod
    rcases hpf : preflight cfg fs0 with ⟨res, fs1, tr1⟩
    rw [hpf] at hstate
    simp only [Prod.mk.injEq] at hstate
    obtain ⟨hfs1, htr1⟩ := hstate
    rcases res with e | ⟨l', od', pd'⟩
    · rw [runBaf_of_preflight_err orc hpf]
      refine ⟨⟨e, rfl⟩, ?_, ?_⟩
      · rw [hfs1]
        exact mem_mkdirFs_self fs0 od
      · rw [htr1, hmt]
        exact List.mem_singleton.mpr rfl
    · exfalso
      obtain ⟨_, hodc, hpdc, _, _, _, ⟨g2, hg2, hg2t⟩, ⟨e3, he3, he3t⟩,
        hpdt, hpanel⟩ := preflight_ok hpf
      have hod2 : od' = od := Option.some.inj (hodc ▸ hod)
      rw [hod2, hmk] at hg2t he3t hpdt hpanel
      rcases hfail with h | ⟨g, hg, hgf⟩ | h | ⟨g, hg, hgf⟩ | h |
        ⟨p, hp, hpf2⟩ | ⟨p, hp, hpf2⟩
      · rw [h] at hg2
        cases hg2
      · rw [hg] at hg2
        rw [Option.some.inj hg2] at hgf
        rw [hg2t] at hgf
        cases hgf
      · rw [h] at he3
        cases he3
      · rw [hg] at he3
        rw [Option.some.inj he3] at hgf
        rw [he3t] at hgf
        cases hgf
      · rw [h] at hpdc
        cases hpdc
      · rw [hp] at hpdc
        rw [← Option.some.inj hpdc] at hpdt
        rw [hpdt] at hpf2
        cases hpf2
      · rw [hp] at hpdc
        rw [← Option.some.inj hpdc] at hpanel
        rw [hpanel] at hpf2
        cases hpf2

/-- Witness for claim C10: an unset label leaves the filesystem untouched,
while a panel directory missing from the filesystem is detected only after
the output directory was created and left behind. -/
theorem claim_C10_witness :
    ((∃ e, (runBaf { demoCfg with label := none } demoOrc demoFs).result =
        Except.error e) ∧
      (runBaf { demoCfg with label := none } demoOrc demoFs).fs = demoFs ∧
      (runBaf { demoCfg with label := none } demoOrc demoFs).trace = []) ∧
    ((∃ e, (runBaf demoCfg demoOrc
        (demoFs.filter fun q => decide (q ≠ "eagle2"))).result =
        Except.error e) ∧
      "out" ∈ (runBaf demoCfg demoOrc
        (demoFs.filter fun q => decide (q ≠ "eagle2"))).fs ∧
      Ev.mkdir "out" ∈ (runBaf demoCfg demoOrc
        (demoFs.filter fun q => decide (q ≠ "eagle2"))).trace) :=
  ⟨(claim_C10 { demoCfg with label := none } demoOrc demoFs).1 (Or.inl rfl),
   (claim_C10 demoCfg demoOrc
       (demoFs.filter fun q => decide (q ≠ "eagle2"))).2
     "S" "snp.vcf.gz" "out" rfl rfl (by decide) rfl (by decide)
     (Or.inr (Or.inr (Or.inr (Or.inl ⟨"eagle2", rfl, by decide⟩))))⟩

/-! ## Entry point lemmas -/

/-- The sixteen canonical option names the dispatch loop handles. -/
def canonOps : List String :=
  ["--label", "--sam", "--samlist", "--barcode", "--snpvcf",
   "--outdir", "--gmap", "--eagle", "--paneldir",
   "--version", "--help",
   "--cellTAG", "--UMItag", "--ncores", "--smartseq", "--bulk"]

/-- A character list split at the first equals sign has none in its head
part. -/
theorem splitEqChars_no_eq :
    ∀ l a b, splitEqChars l = some (a, b) → ('=' : Char) ∉ a := by
  intro l
  induction l with
  | nil => intro a b h; cases h
  | cons c rest ih =>
    intro a b h
    unfold splitEqChars at h
    by_cases hc : c = '='
    · rw [if_pos hc] at h
      injection h with h2
      rw [← (Prod.mk.injEq _ _ _ _).mp h2 |>.1]
      exact List.not_mem_nil '='
    · rw [if_neg hc] at h
      rcases hs : splitEqChars rest with _ | ⟨a2, b2⟩
      · rw [hs] at h
        cases h
      · rw [hs] at h
        injection h with h2
        obtain ⟨ha, _⟩ := (Prod.mk.injEq _ _ _ _).mp h2
        rw [← ha]
        intro hmem
        rcases List.mem_cons.mp hmem with he | he
        · exact hc he.symm
        · exact ih a2 b2 hs he

/-- A character list with no split has no equals sign. -/
theorem splitEqChars_none :
    ∀ l, splitEqChars l = none → ('=' : Char) ∉ l := by
  intro l
  induction l with
  | nil => intro _ h; cases h
  | cons c rest ih =>
    intro h
    unfold splitEqChars at h
    by_cases hc : c = '='
    · rw [if_pos hc] at h
      cases h
    · rw [if_neg hc] at h
      rcases hs : splitEqChars rest with _ | ⟨a2, b2⟩
      · intro hmem
        rcases List.mem_cons.mp hmem with he | he
        · exact hc he.symm
        · exact ih hs he
      · rw [hs] at h
        cases h

/-- The name part of an option token holds no equals sign. -/
theorem splitOptEq_no_eq (s : String) : ('=' : Char) ∉ (splitOptEq s).1.data := by
  unfold splitOptEq
  rcases hs : splitEqChars s.data with _ | ⟨a, b⟩
  · exact splitEqChars_none s.data hs
  · exact splitEqChars_no_eq s.data a b hs

/-- Flag shaped table entries yield canonical option names. -/
theorem canon_of_flag : ∀ s2 ∈ longoptsSpec, ('=' : Char) ∉ s2.data →
    ("--" ++ s2) ∈ canonOps := by decide

/-- Argument taking table entries yield canonical option names after the
equals sign is stripped. -/
theorem canon_of_eq : ∀ s2 ∈ longoptsSpec, strEnds s2 "=" = true →
    ("--" ++ dropLast1 s2) ∈ canonOps := by decide

/-- Table entries without a trailing equals sign are canonical as they
stand. -/
theorem canon_of_noeq : ∀ s2 ∈ longoptsSpec, strEnds s2 "=" = false →
    ("--" ++ s2) ∈ canonOps := by decide

/-- Dropping the appended equals sign recovers the name. -/
theorem dropLast1_concat (s : String) : dropLast1 (s ++ "=") = s := by
  apply String.ext
  show (s ++ "=").data.dropLast = s.data
  rw [String.data_append]
  have he : ("=" : String).data = ['='] := rfl
  rw [he]
  exact List.dropLast_concat

/-- A string with an appended equals sign ends in one. -/
theorem strEnds_concat_eq (s : String) : strEnds (s ++ "=") "=" = true := by
  unfold strEnds
  rw [String.data_append]
  have he : ("=" : String).data = ['='] := rfl
  rw [he, List.reverse_append]
  simp [charsPre]

/-- Long option resolution only returns canonical names. -/
theorem long_has_args_canon {name : String} {b : Bool} {opt : String}
    (hno : ('=' : Char) ∉ name.data)
    (h : long_has_args name = Except.ok (b, opt)) :
    ("--" ++ opt) ∈ canonOps := by
  unfold long_has_args at h
  by_cases h1 : (longoptsSpec.filter fun o => strStarts o name).isEmpty = true
  · rw [if_pos h1] at h
    cases h
  rw [if_neg h1] at h
  by_cases h2 : hasStr (longoptsSpec.filter fun o => strStarts o name) name
      = true
  · rw [if_pos h2] at h
    injection h with h3
    obtain ⟨_, hopt⟩ := (Prod.mk.injEq _ _ _ _).mp h3
    rw [← hopt]
    exact canon_of_flag name
      (List.mem_of_mem_filter (hasStr_iff.mp h2)) hno
  rw [if_neg h2] at h
  by_cases h3 : hasStr (longoptsSpec.filter fun o => strStarts o name)
      (name ++ "=") = true
  · rw [if_pos h3] at h
    injection h with h4
    obtain ⟨_, hopt⟩ := (Prod.mk.injEq _ _ _ _).mp h4
    rw [← hopt]
    have hmem : (name ++ "=") ∈ longoptsSpec :=
      List.mem_of_mem_filter (hasStr_iff.mp h3)
    have := canon_of_eq (name ++ "=") hmem (strEnds_concat_eq name)
    rw [dropLast1_concat] at this
    exact this
  rw [if_neg h3] at h
  by_cases h4 : 1 < (longoptsSpec.filter fun o => strStarts o name).length
  · rw [if_pos h4] at h
    cases h
  rw [if_neg h4] at h
  rcases hposs : longoptsSpec.filter fun o => strStarts o name with _ | ⟨u, us⟩
  · rw [hposs] at h
    cases h
  · rw [hposs] at h
    have hu : u ∈ longoptsSpec :=
      List.mem_of_mem_filter (hposs ▸ List.mem_cons_self u us)
    have h' : (if strEnds u "=" = true then Except.ok (true, dropLast1 u)
        else Except.ok (false, u)) = Except.ok (b, opt) := h
    by_cases hue : strEnds u "=" = true
    · rw [if_pos hue] at h'
      injection h' with h5
      obtain ⟨_, hopt⟩ := (Prod.mk.injEq _ _ _ _).mp h5
      rw [← hopt]
      exact canon_of_eq u hu hue
    · rw [if_neg hue] at h'
      injection h' with h5
      obtain ⟨_, hopt⟩ := (Prod.mk.injEq _ _ _ _).mp h5
      rw [← hopt]
      exact canon_of_noeq u hu (Bool.eq_false_iff.mpr hue)

/-- A resolved long option token always carries a canonical name. -/
theorem do_longs_canon {optstr : String} {next? : Option String}
    {op v : String} {c : Bool}
    (h : do_longs optstr next? = Except.ok ((op, v), c)) : op ∈ canonOps := by
  unfold do_longs at h
  simp only [] at h
  rcases hlha : long_has_args (splitOptEq optstr).1 with e | ⟨hasArg, opt⟩
  · rw [hlha] at h
    cases h
  rw [hlha] at h
  have hc : ("--" ++ opt) ∈ canonOps :=
    long_has_args_canon (splitOptEq_no_eq optstr) hlha
  have h' : (if hasArg then
      (match (splitOptEq optstr).2 with
        | some a => Except.ok (("--" ++ opt, a), false)
        | none =>
          match next? with
          | none => Except.error "option requires argument"
          | some v2 => Except.ok (("--" ++ opt, v2), true))
      else
      (match (splitOptEq optstr).2 with
        | some _ => Except.error "option must not have an argument"
        | none => Except.ok (("--" ++ opt, ""), false))) =
      Except.ok ((op, v), c) := h
  cases hasArg with
  | true =>
    rw [if_pos rfl] at h'
    rcases hp2 : (splitOptEq optstr).2 with _ | a
    · rw [hp2] at h'
      rcases hn : next? with _ | v2
      · rw [hn] at h'
        cases h'
      · rw [hn] at h'
        injection h' with h2
        obtain ⟨hpair, _⟩ := (Prod.mk.injEq _ _ _ _).mp h2
        obtain ⟨hop, _⟩ := (Prod.mk.injEq _ _ _ _).mp hpair
        rw [← hop]
        exact hc
    · rw [hp2] at h'
      injection h' with h2
      obtain ⟨hpair, _⟩ := (Prod.mk.injEq _ _ _ _).mp h2
      obtain ⟨hop, _⟩ := (Prod.mk.injEq _ _ _ _).mp hpair
      rw [← hop]
      exact hc
  | false =>
    rw [if_neg (by simp)] at h'
    rcases hp2 : (splitOptEq optstr).2 with _ | a
    · rw [hp2] at h'
      injection h' with h2
      obtain ⟨hpair, _⟩ := (Prod.mk.injEq _ _ _ _).mp h2
      obtain ⟨hop, _⟩ := (Prod.mk.injEq _ _ _ _).mp hpair
      rw [← hop]
      exact hc
    · rw [hp2] at h'
      cases h'

/-- Every option returned by the fueled getopt loop has a canonical name. -/
theorem getoptGo_canon :
    ∀ (f : Nat) (args : List String) (opts : List (String × String)),
    getoptGo f args = Except.ok opts → ∀ q ∈ opts, q.1 ∈ canonOps := by
  intro f
  induction f with
  | zero =>
    intro args opts h q hq
    cases args with
    | nil =>
      have h2 : ([] : List (String × String)) = opts := by injection h
      rw [← h2] at hq
      cases hq
    | cons a rest =>
      have h2 : ([] : List (String × String)) = opts := by injection h
      rw [← h2] at hq
      cases hq
  | succ m ih =>
    intro args opts h q hq
    cases args with
    | nil =>
      have h2 : ([] : List (String × String)) = opts := by injection h
      rw [← h2] at hq
      cases hq
    | cons a rest =>
      rw [getoptGo] at h
      by_cases h1 : a = "-"
      · rw [if_pos h1] at h
        have h2 : ([] : List (String × String)) = opts := by injection h
        rw [← h2] at hq
        cases hq
      rw [if_neg h1] at h
      by_cases h2 : ¬ strStarts a "-" = true
      · rw [if_pos h2] at h
        have h3 : ([] : List (String × String)) = opts := by injection h
        rw [← h3] at hq
        cases hq
      rw [if_neg h2] at h
      by_cases h3 : a = "--"
      · rw [if_pos h3] at h
        have h4 : ([] : List (String × String)) = opts := by injection h
        rw [← h4] at hq
        cases hq
      rw [if_neg h3] at h
      by_cases h4 : strStarts a "--" = true
      swap
      · rw [if_neg h4] at h
        cases h
      rw [if_pos h4] at h
      rcases hdl : do_longs (strDrop2 a) rest.head? with e | ⟨pair, consumed⟩
      · rw [hdl] at h
        cases h
      rw [hdl] at h
      obtain ⟨op0, v0⟩ := pair
      simp only [] at h
      rcases hrec : getoptGo m (if consumed = true then rest.tail else rest)
        with e2 | ps
      · rw [hrec] at h
        cases h
      · rw [hrec] at h
        have h5 : (op0, v0) :: ps = opts := by injection h
        rw [← h5] at hq
        rcases List.mem_cons.mp hq with rfl | hq2
        · exact do_longs_canon hdl
        · exact ih _ ps hrec q hq2

/-- Dispatch step for the label option. -/
theorem applyOpts_label (c : Cfg) (v : String) (rest : List (String × String)) :
    applyOpts c (("--label", v) :: rest) =
      applyOpts { c with label := some v } rest := rfl

/-- Dispatch step for the sam option. -/
theorem applyOpts_sam (c : Cfg) (v : String) (rest : List (String × String)) :
    applyOpts c (("--sam", v) :: rest) =
      applyOpts { c with sam_fn := some v } rest := rfl

/-- Dispatch step for the samlist option. -/
theorem applyOpts_samlist (c : Cfg) (v : String) (rest : List (String × String)) :
    applyOpts c (("--samlist", v) :: rest) =
      applyOpts { c with sam_list_fn := some v } rest := rfl

/-- Dispatch step for the barcode option. -/
theorem applyOpts_barcode (c : Cfg) (v : String) (rest : List (String × String)) :
    applyOpts c (("--barcode", v) :: rest) =
      applyOpts { c with barcode_fn := some v } rest := rfl

/-- Dispatch step for the snpvcf option. -/
theorem applyOpts_snpvcf (c : Cfg) (v : String) (rest : List (String × String)) :
    applyOpts c (("--snpvcf", v) :: rest) =
      applyOpts { c with snp_vcf_fn := some v } rest := rfl

/-- Dispatch step for the outdir option. -/
theorem applyOpts_outdir (c : Cfg) (v : String) (rest : List (String × String)) :
    applyOpts c (("--outdir", v) :: rest) =
      applyOpts { c with out_dir := some v } rest := rfl

/-- Dispatch step for the gmap option. -/
theorem applyOpts_gmap (c : Cfg) (v : String) (rest : List (String × String)) :
    applyOpts c (("--gmap", v) :: rest) =
      applyOpts { c with gmap_fn := some v } rest := rfl

/-- Dispatch step for the eagle option. -/
theorem applyOpts_eagle (c : Cfg) (v : String) (rest : List (String × String)) :
    applyOpts c (("--eagle", v) :: rest) =
      applyOpts { c with eagle_fn := some v } rest := rfl

/-- Dispatch step for the paneldir option. -/
theorem applyOpts_paneldir (c : Cfg) (v : String) (rest : List (String × String)) :
    applyOpts c (("--paneldir", v) :: rest) =
      applyOpts { c with panel_dir := some v } rest := rfl

/-- Dispatch step for the version option: immediate exit with status 1. -/
theorem applyOpts_version (c : Cfg) (v : String) (rest : List (String × String)) :
    applyOpts c (("--version", v) :: rest) = OptOutcome.exitWith 1 := rfl

/-- Dispatch step for the help option: immediate exit with status 1. -/
theorem applyOpts_help (c : Cfg) (v : String) (rest : List (String × String)) :
    applyOpts c (("--help", v) :: rest) = OptOutcome.exitWith 1 := rfl

/-- Dispatch step for the cell tag option, lower cased on the way in. -/
theorem applyOpts_celltag (c : Cfg) (v : String) (rest : List (String × String)) :
    applyOpts c (("--cellTAG", v) :: rest) =
      applyOpts { c with cell_tag := v } rest := rfl

/-- Dispatch step for the UMI tag option, lower cased on the way in. -/
theorem applyOpts_umitag (c : Cfg) (v : String) (rest : List (String × String)) :
    applyOpts c (("--UMItag", v) :: rest) =
      applyOpts { c with umi_tag := v } rest := rfl

/-- Dispatch step for the ncores option: an unparsable count raises. -/
theorem applyOpts_ncores (c : Cfg) (v : String) (rest : List (String × String)) :
    applyOpts c (("--ncores", v) :: rest) =
      (match v.toInt? with
        | none => OptOutcome.exitWith 1
        | some n => applyOpts { c with ncores := n } rest) := rfl

/-- Dispatch step for the smartseq mode switch. -/
theorem applyOpts_smartseq (c : Cfg) (v : String) (rest : List (String × String)) :
    applyOpts c (("--smartseq", v) :: rest) =
      applyOpts { c with mode := "smartseq" } rest := rfl

/-- Dispatch step for the bulk mode switch. -/
theorem applyOpts_bulk (c : Cfg) (v : String) (rest : List (String × String)) :
    applyOpts c (("--bulk", v) :: rest) =
      applyOpts { c with mode := "bulk" } rest := rfl

/-- On canonical option names the dispatch loop never takes the unmatched
branch, so `main` never takes the early minus one return. -/
theorem applyOpts_ne_early :
    ∀ (opts : List (String × String)) (c : Cfg),
    (∀ q ∈ opts, q.1 ∈ canonOps) →
    applyOpts c opts ≠ OptOutcome.earlyReturn := by
  intro opts
  induction opts with
  | nil =>
    intro c _ h
    cases h
  | cons q rest ih =>
    intro c hq
    obtain ⟨op0, v⟩ := q
    have hop := hq (op0, v) (List.mem_cons_self _ _)
    have hrest : ∀ q2 ∈ rest, q2.1 ∈ canonOps :=
      fun q2 h2 => hq q2 (List.mem_cons_of_mem _ h2)
    simp only [canonOps, List.mem_cons, List.not_mem_nil, or_false] at hop
    rcases hop with h | h | h | h | h | h | h | h | h | h | h | h | h | h |
      h | h <;> subst h
    · rw [applyOpts_label]; exact ih _ hrest
    · rw [applyOpts_sam]; exact ih _ hrest
    · rw [applyOpts_samlist]; exact ih _ hrest
    · rw [applyOpts_barcode]; exact ih _ hrest
    · rw [applyOpts_snpvcf]; exact ih _ hrest
    · rw [applyOpts_outdir]; exact ih _ hrest
    · rw [applyOpts_gmap]; exact ih _ hrest
    · rw [applyOpts_eagle]; exact ih _ hrest
    · rw [applyOpts_paneldir]; exact ih _ hrest
    · rw [applyOpts_version]; intro hx; cases hx
    · rw [applyOpts_help]; intro hx; cases hx
    · rw [applyOpts_celltag]; exact ih _ hrest
    · rw [applyOpts_umitag]; exact ih _ hrest
    · rw [applyOpts_ncores]
      rcases htoi : v.toInt? with _ | n
      · simp only [htoi]
        intro hx
        cases hx
      · simp only [htoi]
        exact ih _ hrest
    · rw [applyOpts_smartseq]; exact ih _ hrest
    · rw [applyOpts_bulk]; exact ih _ hrest

/-- On canonical option names every explicit exit the dispatch loop
performs carries status one. -/
theorem applyOpts_exit_one :
    ∀ (opts : List (String × String)) (c : Cfg) (n : Nat),
    (∀ q ∈ opts, q.1 ∈ canonOps) →
    applyOpts c opts = OptOutcome.exitWith n → n = 1 := by
  intro opts
  induction opts with
  | nil =>
    intro c n _ h
    cases h
  | cons q rest ih =>
    intro c n hq h
    obtain ⟨op0, v⟩ := q
    have hop := hq (op0, v) (List.mem_cons_self _ _)
    have hrest : ∀ q2 ∈ rest, q2.1 ∈ canonOps :=
      fun q2 h2 => hq q2 (List.mem_cons_of_mem _ h2)
    simp only [canonOps, List.mem_cons, List.not_mem_nil, or_false] at hop
    rcases hop with h0 | h0 | h0 | h0 | h0 | h0 | h0 | h0 | h0 | h0 | h0 |
      h0 | h0 | h0 | h0 | h0 <;> subst h0
    · rw [applyOpts_label] at h; exact ih _ _ hrest h
    · rw [applyOpts_sam] at h; exact ih _ _ hrest h
    · rw [applyOpts_samlist] at h; exact ih _ _ hrest h
    · rw [applyOpts_barcode] at h; exact ih _ _ hrest h
    · rw [applyOpts_snpvcf] at h; exact ih _ _ hrest h
    · rw [applyOpts_outdir] at h; exact ih _ _ hrest h
    · rw [applyOpts_gmap] at h; exact ih _ _ hrest h
    · rw [applyOpts_eagle] at h; exact ih _ _ hrest h
    · rw [applyOpts_paneldir] at h; exact ih _ _ hrest h
    · rw [applyOpts_version] at h; injection h with h2; exact h2.symm
    · rw [applyOpts_help] at h; injection h with h2; exact h2.symm
    · rw [applyOpts_celltag] at h; exact ih _ _ hrest h
    · rw [applyOpts_umitag] at h; exact ih _ _ hrest h
    · rw [applyOpts_ncores] at h
      rcases htoi : v.toInt? with _ | m
      · simp only [htoi] at h
        injection h with h2
        exact h2.symm
      · simp only [htoi] at h
        exact ih _ _ hrest h
    · rw [applyOpts_smartseq] at h; exact ih _ _ hrest h
    · rw [applyOpts_bulk] at h; exact ih _ _ hrest h

/-- A normally returning orchestrator run has a set label and output
directory, and the final merged VCF is present in the final filesystem. -/
theorem runBaf_ok_final {cfg : Cfg} {orc : Oracle} {fs0 : List String}
    (h : (runBaf cfg orc fs0).result = Except.ok ()) :
    ∃ l od, cfg.label = some l ∧ cfg.out_dir = some od ∧
      final_vcf_fn od l ∈ (runBaf cfg orc fs0).fs := by
  rcases hpf : preflight cfg fs0 with ⟨res, fs1, tr1⟩
  rcases res with e | ⟨l', od', pd'⟩
  · rw [runBaf_of_preflight_err orc hpf] at h
    cases h
  · obtain ⟨hlab, hodc, _⟩ := preflight_ok hpf
    rw [runBaf_of_preflight_ok orc hpf] at h ⊢
    refine ⟨l', od', hlab, hodc, ?_⟩
    simp only [stages] at h ⊢
    split_ifs at h ⊢
    any_goals cases h
    exact List.mem_cons_self _ _

/-- Claim C7: the process exit status of the entry point is zero only when
the whole pipeline completed with the final merged VCF present, and a getopt
failure (an invalid command line option) always exits non zero. -/
theorem claim_C7 (argv : List String) (orc : Oracle) (fs0 : List String) :
    (processExit argv orc fs0 = 0 → pipeline_completed argv orc fs0) ∧
    (∀ e, getoptLoop (argv.drop 1) = Except.error e →
      processExit argv orc fs0 ≠ 0) := by
  constructor
  · intro h0
    unfold processExit at h0
    by_cases hlen : argv.length < 2
    · rw [if_pos hlen] at h0
      cases h0
    rw [if_neg hlen] at h0
    rcases hgo : getoptLoop (argv.drop 1) with e | opts
    · rw [hgo] at h0
      simp only [] at h0
      exact absurd h0 one_ne_zero
    rw [hgo] at h0
    simp only [] at h0
    have hcanon : ∀ q ∈ opts, q.1 ∈ canonOps :=
      getoptGo_canon (argv.drop 1).length (argv.drop 1) opts hgo
    rcases hao : applyOpts defaultCfg opts with cfg | n | _
    · rw [hao] at h0
      simp only [] at h0
      rcases hrb : (runBaf cfg orc fs0).result with e2 | u
      · rw [hrb] at h0
        simp only [] at h0
        exact absurd h0 one_ne_zero
      · cases u
        obtain ⟨l, od, hl, hod, hfin⟩ := runBaf_ok_final hrb
        exact ⟨cfg, l, od, ⟨opts, hgo, hao⟩, hl, hod, hrb, hfin⟩
    · rw [hao] at h0
      simp only [] at h0
      have h1 := applyOpts_exit_one opts defaultCfg n hcanon hao
      omega
    · exact absurd hao (applyOpts_ne_early opts defaultCfg hcanon)
  · intro e hgo h0
    unfold processExit at h0
    by_cases hlen : argv.length < 2
    · rw [if_pos hlen] at h0
      cases h0
    rw [if_neg hlen, hgo] at h0
    simp only [] at h0
    exact absurd h0 one_ne_zero

/-- The command line of the witness run. -/
def demoArgv : List String :=
  ["baf.py", "--label", "S", "--sam", "a.bam", "--barcode", "bc.tsv",
   "--snpvcf", "snp.vcf.gz", "--outdir", "out", "--gmap", "gmap_hg38.txt.gz",
   "--eagle", "eagle2", "--paneldir", "panel"]

/-- Witness for claim C7: the concrete successful run exits zero and is
completed, and an invalid option exits non zero. -/
theorem claim_C7_witness :
    pipeline_completed demoArgv demoOrc demoFs ∧
    processExit ["baf.py", "--bogus"] demoOrc demoFs ≠ 0 :=
  ⟨(claim_C7 demoArgv demoOrc demoFs).1 (by decide),
   (claim_C7 ["baf.py", "--bogus"] demoOrc demoFs).2 "option not recognized"
     rfl⟩
